import Mathlib

/-!
Verification development for the Maitri multimodal mental-health analysis
pipeline.  The Python sources under `src/backend` and `src/audio` are shallowly
embedded: pure computations become Lean functions over `ℚ`, `ℕ` and `String`,
Python exceptions become `Except String`, and the external ML models / network
services (spaCy NER, HuggingFace classifiers, MTCNN, Deepgram, Groq) are
parameters of the embedded components, exactly as the system's own design
treats them (spec §6: external interfaces, black boxes returning full
probability distributions).
-/

namespace Maitri

/-- Python's `max(xs, key=f)`: the first element attaining the maximal key
(a later element replaces the current best only when its key is strictly
greater).  Returns `none` for an empty list, where Python raises
`ValueError: max() arg is an empty sequence`. -/
def pyMaxBy {α β : Type} [LinearOrder β] (f : α → β) : List α → Option α
  | [] => none
  | x :: xs =>
    match pyMaxBy f xs with
    | none => some x
    | some y => if f y > f x then some y else some x

theorem pyMaxBy_isSome {α β : Type} [LinearOrder β] (f : α → β) (l : List α)
    (h : l ≠ []) : (pyMaxBy f l).isSome := by
  cases l with
  | nil => exact absurd rfl h
  | cons x xs =>
    simp only [pyMaxBy]
    cases pyMaxBy f xs with
    | none => rfl
    | some y => by_cases hc : f y > f x <;> simp [hc]

/-- Round-half-even on `ℚ` (the tie-breaking rule of Python's `round`). -/
def roundHalfEven (q : ℚ) : ℤ :=
  let f := ⌊q⌋
  let r := q - f
  if r < 1/2 then f
  else if r > 1/2 then f + 1
  else if f % 2 = 0 then f else f + 1

/-- Python's `round(q, n)`: round to `n` decimal places, ties to even.
(The Python sources round exact real values of the model; binary-float
representation noise is below every threshold the code compares against.) -/
def roundTo (n : ℕ) (q : ℚ) : ℚ :=
  (roundHalfEven (q * (10 : ℚ) ^ n) : ℚ) / (10 : ℚ) ^ n

/-- Python's `int()` applied to a nonnegative float: truncation toward zero. -/
def pyInt (q : ℚ) : ℤ :=
  if 0 ≤ q then ⌊q⌋ else -⌊-q⌋

theorem except_bind_ok {ε α β : Type} (a : α) (f : α → Except ε β) :
    ((Except.ok a : Except ε α) >>= f) = f a := rfl

theorem except_bind_err {ε α β : Type} (e : ε) (f : α → Except ε β) :
    ((Except.error e : Except ε α) >>= f) = Except.error e := rfl

/-- `severity_map = {"not depression": 0, "moderate": 5, "severe": 9}` with
Python's `.get(label, 0)` default. -/
def severityMapGet (label : String) : ℕ :=
  if label = "not depression" then 0
  else if label = "moderate" then 5
  else if label = "severe" then 9
  else 0

/-- `reverse_severity_map = {0: "not depression", 5: "moderate", 9: "severe"}`
(`text_chunking_analyzer.py`).  Subscripting this dict with a value produced
by `severity_map` is total. -/
def reverseSeverityMap (sev : ℕ) : String :=
  if sev = 0 then "not depression"
  else if sev = 5 then "moderate"
  else "severe"

end Maitri

namespace Maitri

/-- `PrivacyMode` enum of `parallel_pipeline.py`. -/
inductive PrivacyMode where
  | full_privacy
  | anonymized
deriving DecidableEq, Repr

/-- One entry of a classifier's score list: Python's `{'label': …, 'score': …}`.
The HuggingFace pipelines are called with `return_all_scores=True`, so a
classifier output is one entry per label of its fixed label set. -/
structure ScoreEntry where
  label : String
  score : ℚ
deriving DecidableEq, Repr

/-- Result dict of `TextAnalyzer.analyze_emotion_local`. -/
structure EmotionResult where
  dominant_emotion : String
  confidence : ℚ
  all_emotions : List ScoreEntry
deriving DecidableEq, Repr

/-- Result dict of `TextAnalyzer.analyze_depression_local`
(`parallel_pipeline.py`). -/
structure DepressionResult where
  depression_level : String
  confidence : ℚ
  severity : ℕ
  all_scores : List ScoreEntry
deriving DecidableEq, Repr

/-- Parsed JSON returned by `TextAnalyzer.analyze_detailed_llm`. -/
structure LlmTextAnalysis where
  emotions : List String
  sentiment : String
  key_phrases : List String
  severity : ℤ
deriving DecidableEq, Repr

/-- The analysis dict built by `TextAnalyzer.analyze`. -/
structure TextAnalysisRecord where
  emotion : EmotionResult
  depression : DepressionResult
  llm_analysis : Option LlmTextAnalysis
  anonymized_text : Option String
deriving DecidableEq, Repr

/-- A spaCy entity span as used by `remove_pii`: `ent.start_char`,
`ent.end_char`, `ent.label_`. -/
structure NerEnt where
  startChar : ℕ
  endChar : ℕ
  entLabel : String
deriving DecidableEq, Repr

end Maitri

namespace Maitri

/-! ### The PII-removal regular expressions

`TextAnalyzer.remove_pii` applies, after NER-span redaction,

  `re.sub(r'\b\d{3}[-.]?\d{3}[-.]?\d{4}\b', '[PHONE]', anonymized)`
  `re.sub(r'\b[A-Za-z0-9._%+-]+@[A-Za-z0-9.-]+\.[A-Z|a-z]{2,}\b', '[EMAIL]', anonymized)`

Both are embedded as executable leftmost-scan backtracking matchers over
`List Char`, following Python `re` semantics: altern't-greedy quantifiers
backtrack from the longest candidate, `\b` tests `\w`-membership of the two
neighbouring characters, and `re.sub` rescans from the end of each match. -/

/-- Python's `\w` over the ASCII range: `[A-Za-z0-9_]`. -/
def pyWordChar (c : Char) : Bool :=
  c.isAlphanum || c = '_'

def isSepChar (c : Char) : Bool :=
  c = '-' || c = '.'

/-- Word-boundary `\b` test between an optional previous character and the
current remainder of the string. -/
def atBoundary (prev : Option Char) (cs : List Char) : Bool :=
  match prev, cs with
  | none, [] => false
  | none, c :: _ => pyWordChar c
  | some p, [] => pyWordChar p
  | some p, c :: _ => xor (pyWordChar p) (pyWordChar c)

/-- Consume exactly `n` decimal digits. -/
def parseDigits : ℕ → List Char → Option (List Char × List Char)
  | 0, cs => some ([], cs)
  | _ + 1, [] => none
  | n + 1, c :: cs =>
    if c.isDigit then (parseDigits n cs).map (fun p => (c :: p.1, p.2)) else none

/-- Consume one `[-.]` separator when `b` is true (the quantifier `?` taken),
nothing when `b` is false. -/
def parseSep (b : Bool) (cs : List Char) : Option (List Char × List Char) :=
  if b then
    match cs with
    | [] => none
    | c :: rest => if isSepChar c then some ([c], rest) else none
  else some ([], cs)

/-- One backtracking alternative of `\d{3}[-.]?\d{3}[-.]?\d{4}`: `b1`/`b2`
record whether each optional separator is taken. -/
def parseArm (b1 b2 : Bool) (cs : List Char) : Option (List Char × List Char) := do
  let p1 ← parseDigits 3 cs
  let p2 ← parseSep b1 p1.2
  let p3 ← parseDigits 3 p2.2
  let p4 ← parseSep b2 p3.2
  let p5 ← parseDigits 4 p4.2
  some (p1.1 ++ p2.1 ++ p3.1 ++ p4.1 ++ p5.1, p5.2)

/-- The pattern always ends in a digit, so the trailing `\b` holds iff the
rest is empty or starts with a non-word character. -/
def trailingBoundary (rest : List Char) : Bool :=
  match rest with
  | [] => true
  | c :: _ => !(pyWordChar c)

def armWithBoundary (b1 b2 : Bool) (cs : List Char) : Option (List Char × List Char) :=
  match parseArm b1 b2 cs with
  | none => none
  | some p => if trailingBoundary p.2 then some p else none

/-- `\d{3}[-.]?\d{3}[-.]?\d{4}\b` at the current position, trying the
backtracking alternatives in Python's order (greedy `?` first). -/
def phoneCore (cs : List Char) : Option (List Char × List Char) :=
  match armWithBoundary true true cs with
  | some p => some p
  | none =>
    match armWithBoundary true false cs with
    | some p => some p
    | none =>
      match armWithBoundary false true cs with
      | some p => some p
      | none => armWithBoundary false false cs

/-- Full phone pattern with the leading `\b`. -/
def phoneMatchAt (prev : Option Char) (cs : List Char) : Option (List Char × List Char) :=
  if atBoundary prev cs then phoneCore cs else none

theorem parseDigits_spec (n : ℕ) (cs m r : List Char)
    (h : parseDigits n cs = some (m, r)) :
    cs = m ++ r ∧ m.length = n ∧ ∀ c ∈ m, c.isDigit := by
  induction n generalizing cs m r with
  | zero =>
    simp only [parseDigits, Option.some.injEq, Prod.mk.injEq] at h
    simp [← h.1, ← h.2]
  | succ k ih =>
    cases cs with
    | nil => simp [parseDigits] at h
    | cons c rest =>
      simp only [parseDigits] at h
      by_cases hd : c.isDigit
      · simp only [hd, if_true, Option.map_eq_some'] at h
        obtain ⟨⟨m', r'⟩, hp, he⟩ := h
        obtain ⟨h1, h2, h3⟩ := ih rest m' r' hp
        cases he
        refine ⟨by simp [h1], by simp [h2], ?_⟩
        intro x hx
        rcases List.mem_cons.mp hx with hx | hx
        · exact hx ▸ hd
        · exact h3 x hx
      · simp [hd] at h

theorem parseSep_spec (b : Bool) (cs m r : List Char)
    (h : parseSep b cs = some (m, r)) : cs = m ++ r := by
  cases b with
  | false =>
    simp only [parseSep, if_neg (by simp : ¬(false = true))] at h
    cases h; rfl
  | true =>
    simp only [parseSep, if_pos rfl] at h
    cases cs with
    | nil => exact absurd h (by simp)
    | cons c rest =>
      by_cases hs : isSepChar c
      · simp only [hs, if_true, Option.some.injEq, Prod.mk.injEq] at h
        simp [← h.1, ← h.2]
      · simp [hs] at h

theorem parseArm_spec (b1 b2 : Bool) (cs m r : List Char)
    (h : parseArm b1 b2 cs = some (m, r)) :
    cs = m ++ r ∧ 0 < m.length := by
  simp only [parseArm, bind, Option.bind_eq_some] at h
  obtain ⟨⟨m1, r1⟩, h1, ⟨⟨m2, r2⟩, h2, ⟨⟨m3, r3⟩, h3, ⟨⟨m4, r4⟩, h4,
    ⟨⟨m5, r5⟩, h5, he⟩⟩⟩⟩⟩ := h
  simp only [Option.some.injEq, Prod.mk.injEq] at he
  obtain ⟨hd1, hl1, _⟩ := parseDigits_spec _ _ _ _ h1
  have hd2 := parseSep_spec _ _ _ _ h2
  obtain ⟨hd3, _, _⟩ := parseDigits_spec _ _ _ _ h3
  have hd4 := parseSep_spec _ _ _ _ h4
  obtain ⟨hd5, _, _⟩ := parseDigits_spec _ _ _ _ h5
  constructor
  · rw [← he.1, ← he.2]
    simp only at hd2 hd3 hd4 hd5
    rw [hd1, hd2, hd3, hd4, hd5]
    simp
  · rw [← he.1]
    simp only [List.length_append]
    omega

theorem phoneCore_spec (cs m r : List Char)
    (h : phoneCore cs = some (m, r)) : cs = m ++ r ∧ 0 < m.length := by
  have harm : ∀ b1 b2, armWithBoundary b1 b2 cs = some (m, r) →
      cs = m ++ r ∧ 0 < m.length := by
    intro b1 b2 hb
    simp only [armWithBoundary] at hb
    cases ha : parseArm b1 b2 cs with
    | none => rw [ha] at hb; exact absurd hb (by simp)
    | some p =>
      rw [ha] at hb
      by_cases ht : trailingBoundary p.2
      · simp only [ht, if_true, Option.some.injEq] at hb
        have := parseArm_spec b1 b2 cs p.1 p.2 ha
        rw [hb] at this; exact this
      · simp [ht] at hb
  simp only [phoneCore] at h
  cases h1 : armWithBoundary true true cs with
  | some p => rw [h1] at h; cases h; exact harm _ _ h1
  | none =>
    rw [h1] at h
    cases h2 : armWithBoundary true false cs with
    | some p => rw [h2] at h; cases h; exact harm _ _ h2
    | none =>
      rw [h2] at h
      cases h3 : armWithBoundary false true cs with
      | some p => rw [h3] at h; cases h; exact harm _ _ h3
      | none => rw [h3] at h; exact harm _ _ h

theorem phoneMatchAt_spec (prev : Option Char) (cs m r : List Char)
    (h : phoneMatchAt prev cs = some (m, r)) : cs = m ++ r ∧ 0 < m.length := by
  simp only [phoneMatchAt] at h
  by_cases hb : atBoundary prev cs
  · exact phoneCore_spec cs m r (by rwa [if_pos hb] at h)
  · rw [if_neg hb] at h; exact absurd h (by simp)

/-- `re.sub` scan loop for the phone pattern: leftmost matches replaced by
`[PHONE]`, scanning restarts after each match with the match's last original
character as lookbehind context. -/
def phoneSubAux (prev : Option Char) (cs : List Char) : List Char :=
  match cs with
  | [] => []
  | c :: rest =>
    match h : phoneMatchAt prev (c :: rest) with
    | some p =>
      have : p.2.length < (c :: rest).length := by
        obtain ⟨he, hl⟩ := phoneMatchAt_spec prev _ p.1 p.2 h
        calc p.2.length < p.1.length + p.2.length := by omega
        _ = (c :: rest).length := by rw [he]; simp
      "[PHONE]".data ++ phoneSubAux (some (p.1.getLastD c)) p.2
    | none => c :: phoneSubAux (some c) rest
termination_by cs.length

/-- `[A-Za-z0-9._%+-]` (the local part of the email pattern). -/
def localClass (c : Char) : Bool :=
  c.isAlphanum || c = '.' || c = '_' || c = '%' || c = '+' || c = '-'

/-- `[A-Za-z0-9.-]` (the domain part). -/
def domainClass (c : Char) : Bool :=
  c.isAlphanum || c = '.' || c = '-'

/-- `[A-Z|a-z]` — the literal class of the source pattern, which contains the
pipe character. -/
def tldClass (c : Char) : Bool :=
  c.isAlpha || c = '|'

/-- Trailing `\b` after taking `m` characters of the TLD run `tld` (with `r4`
following the run). -/
def tldBoundaryOk (tld : List Char) (m : ℕ) (r4 : List Char) : Bool :=
  match (tld.take m).getLast? with
  | none => false
  | some lastC =>
    match tld.drop m with
    | c :: _ => xor (pyWordChar lastC) (pyWordChar c)
    | [] =>
      match r4 with
      | c :: _ => xor (pyWordChar lastC) (pyWordChar c)
      | [] => pyWordChar lastC

/-- Backtrack the greedy `{2,}` from `m` candidate characters down to 2,
looking for a trailing word boundary. -/
def tldSearch (tld r4 : List Char) : ℕ → Option ℕ
  | 0 => none
  | 1 => none
  | m + 2 =>
    if tldBoundaryOk tld (m + 2) r4 then some (m + 2) else tldSearch tld r4 (m + 1)

/-- Try the domain/TLD split with the domain part taking `j` characters of the
greedy domain run `dom` (so `dom[j]` must be the literal dot). -/
def tryDomSplit (loc dom r3 : List Char) (j : ℕ) : Option (List Char × List Char) :=
  if hj : j < dom.length ∧ 1 ≤ j then
    if dom.get ⟨j, hj.1⟩ = '.' then
      let tail := dom.drop (j + 1) ++ r3
      let tld := tail.takeWhile tldClass
      let r4 := tail.dropWhile tldClass
      match tldSearch tld r4 tld.length with
      | some m => some (loc ++ '@' :: dom.take j ++ '.' :: tld.take m, tld.drop m ++ r4)
      | none => none
    else none
  else none

/-- Backtrack the greedy domain run from split point `j` downward. -/
def domSearch (loc dom r3 : List Char) : ℕ → Option (List Char × List Char)
  | 0 => none
  | j + 1 =>
    match tryDomSplit loc dom r3 (j + 1) with
    | some p => some p
    | none => domSearch loc dom r3 j

/-- `[A-Za-z0-9._%+-]+@[A-Za-z0-9.-]+\.[A-Z|a-z]{2,}\b` at the current
position (without the leading `\b`). -/
def emailCore (cs : List Char) : Option (List Char × List Char) :=
  let loc := cs.takeWhile localClass
  let r1 := cs.dropWhile localClass
  if loc.isEmpty then none
  else
    match r1 with
    | '@' :: r2 =>
      let dom := r2.takeWhile domainClass
      let r3 := r2.dropWhile domainClass
      domSearch loc dom r3 (dom.length - 1)
    | _ => none

/-- Full email pattern with the leading `\b`. -/
def emailMatchAt (prev : Option Char) (cs : List Char) : Option (List Char × List Char) :=
  if atBoundary prev cs then emailCore cs else none

theorem tryDomSplit_spec (loc dom r3 : List Char) (j : ℕ) (m r : List Char)
    (h : tryDomSplit loc dom r3 j = some (m, r)) :
    loc ++ '@' :: (dom ++ r3) = m ++ r ∧ loc.length + 1 ≤ m.length := by
  simp only [tryDomSplit] at h
  by_cases hj : j < dom.length ∧ 1 ≤ j
  · rw [dif_pos hj] at h
    by_cases hdot : dom.get ⟨j, hj.1⟩ = '.'
    · rw [if_pos hdot] at h
      set tail := dom.drop (j + 1) ++ r3 with htail
      cases hts : tldSearch (tail.takeWhile tldClass) (tail.dropWhile tldClass)
          (tail.takeWhile tldClass).length with
      | none => rw [hts] at h; exact absurd h (by simp)
      | some k =>
        rw [hts] at h
        simp only [Option.some.injEq, Prod.mk.injEq] at h
        constructor
        · rw [← h.1, ← h.2]
          have h2 : dom[j] = '.' := by simpa using hdot
          have hdome : dom = dom.take j ++ '.' :: dom.drop (j + 1) := by
            conv_lhs => rw [← List.take_append_drop j dom,
              List.drop_eq_getElem_cons hj.1, h2]
          have htk : (tail.takeWhile tldClass).take k ++
              ((tail.takeWhile tldClass).drop k ++ tail.dropWhile tldClass) = tail := by
            rw [← List.append_assoc, List.take_append_drop,
              List.takeWhile_append_dropWhile]
          simp only [List.append_assoc, List.cons_append]
          rw [htk, htail]
          conv_lhs => rw [hdome]
          simp
        · rw [← h.1]
          simp only [List.length_append, List.length_cons]
          omega
    · rw [if_neg hdot] at h; exact absurd h (by simp)
  · rw [dif_neg hj] at h; exact absurd h (by simp)

theorem domSearch_spec (loc dom r3 : List Char) (n : ℕ) (m r : List Char)
    (h : domSearch loc dom r3 n = some (m, r)) :
    loc ++ '@' :: (dom ++ r3) = m ++ r ∧ loc.length + 1 ≤ m.length := by
  induction n with
  | zero => simp [domSearch] at h
  | succ k ih =>
    simp only [domSearch] at h
    cases ht : tryDomSplit loc dom r3 (k + 1) with
    | some p =>
      rw [ht] at h
      cases h
      exact tryDomSplit_spec loc dom r3 (k + 1) m r ht
    | none => rw [ht] at h; exact ih h

theorem emailCore_spec (cs m r : List Char)
    (h : emailCore cs = some (m, r)) : cs = m ++ r ∧ 0 < m.length := by
  simp only [emailCore] at h
  by_cases he : (cs.takeWhile localClass).isEmpty
  · rw [if_pos he] at h; exact absurd h (by simp)
  · rw [if_neg he] at h
    cases h1 : cs.dropWhile localClass with
    | nil => rw [h1] at h; exact absurd h (by simp)
    | cons c r2 =>
      rw [h1] at h
      by_cases hc : c = '@'
      · subst hc
        simp only at h
        have := domSearch_spec (cs.takeWhile localClass)
          (r2.takeWhile domainClass) (r2.dropWhile domainClass)
          ((r2.takeWhile domainClass).length - 1) m r h
        have hr2 : r2.takeWhile domainClass ++ r2.dropWhile domainClass = r2 :=
          List.takeWhile_append_dropWhile domainClass r2
        rw [hr2] at this
        have hcs : cs = cs.takeWhile localClass ++ '@' :: r2 := by
          conv_lhs => rw [← List.takeWhile_append_dropWhile localClass cs]
          rw [h1]
        refine ⟨by rw [hcs, this.1], ?_⟩
        have := this.2
        omega
      · -- any non-'@' head of the remainder fails the pattern
        have : (match c :: r2 with
            | '@' :: r2 => domSearch (cs.takeWhile localClass)
                (r2.takeWhile domainClass) (r2.dropWhile domainClass)
                ((r2.takeWhile domainClass).length - 1)
            | _ => (none : Option (List Char × List Char))) = none := by
          cases hcc : c
          simp_all [hcc]
        rw [this] at h
        exact absurd h (by simp)

theorem emailMatchAt_spec (prev : Option Char) (cs m r : List Char)
    (h : emailMatchAt prev cs = some (m, r)) : cs = m ++ r ∧ 0 < m.length := by
  simp only [emailMatchAt] at h
  by_cases hb : atBoundary prev cs
  · exact emailCore_spec cs m r (by rwa [if_pos hb] at h)
  · rw [if_neg hb] at h; exact absurd h (by simp)

/-- `re.sub` scan loop for the email pattern. -/
def emailSubAux (prev : Option Char) (cs : List Char) : List Char :=
  match cs with
  | [] => []
  | c :: rest =>
    match h : emailMatchAt prev (c :: rest) with
    | some p =>
      have : p.2.length < (c :: rest).length := by
        obtain ⟨he, hl⟩ := emailMatchAt_spec prev _ p.1 p.2 h
        calc p.2.length < p.1.length + p.2.length := by omega
        _ = (c :: rest).length := by rw [he]; simp
      "[EMAIL]".data ++ emailSubAux (some (p.1.getLastD c)) p.2
    | none => c :: emailSubAux (some c) rest
termination_by cs.length

/-- The `TextAnalyzer` of `parallel_pipeline.py`.  Its externally loaded
models — the spaCy NER pipeline, the two HuggingFace classifiers and the Groq
LLM client — are the fields; the methods below are the embedded code. -/
structure TextAnalyzer where
  nlpEnts : String → List NerEnt
  emotionClassifier : String → List ScoreEntry
  depressionClassifier : String → List ScoreEntry
  llmDetailed : String → Except String LlmTextAnalysis

/-- The NER-span redaction loop of `remove_pii`: entity spans with the
monitored labels are replaced by `[REDACTED]`, iterating `reversed(doc.ents)`
so that character offsets stay valid. -/
def redactEnts (ents : List NerEnt) (text : List Char) : List Char :=
  ents.reverse.foldl
    (fun acc e =>
      if e.entLabel ∈ ["PERSON", "ORG", "GPE", "FAC", "LOC"] then
        acc.take e.startChar ++ "[REDACTED]".data ++ acc.drop e.endChar
      else acc)
    text

/-- `TextAnalyzer.remove_pii`: NER redaction, then the phone regex
substitution, then the email regex substitution. -/
def removePii (ta : TextAnalyzer) (text : String) : String :=
  let anonymized := redactEnts (ta.nlpEnts text) text.data
  String.mk (emailSubAux none (phoneSubAux none anonymized))

/-- `TextAnalyzer.analyze_emotion_local`.  Python's `max` raises on an empty
sequence, modeled by `Except.error`. -/
def analyzeEmotionLocal (ta : TextAnalyzer) (text : String) :
    Except String EmotionResult :=
  let results := ta.emotionClassifier text
  match pyMaxBy (fun e => e.score) results with
  | none => .error "ValueError: max() arg is an empty sequence"
  | some dominant =>
    .ok { dominant_emotion := dominant.label
          confidence := dominant.score
          all_emotions := results }

/-- `TextAnalyzer.analyze_depression_local` (`parallel_pipeline.py`). -/
def analyzeDepressionLocal (ta : TextAnalyzer) (text : String) :
    Except String DepressionResult :=
  let results := ta.depressionClassifier text
  match pyMaxBy (fun e => e.score) results with
  | none => .error "ValueError: max() arg is an empty sequence"
  | some dominant =>
    .ok { depression_level := dominant.label
          confidence := dominant.score
          severity := severityMapGet dominant.label
          all_scores := results }

/-- `TextAnalyzer.analyze`: always run both local classifiers; under
`FULL_PRIVACY` return the record with the LLM/anonymized-text fields `None`
and `outbound_text = None`; otherwise anonymize, call the detail LLM on the
anonymized string, and return it as `outbound_text`. -/
def textAnalyze (ta : TextAnalyzer) (text : String) (mode : PrivacyMode) :
    Except String (TextAnalysisRecord × Option String) := do
  let emotionResult ← analyzeEmotionLocal ta text
  let depressionResult ← analyzeDepressionLocal ta text
  match mode with
  | .full_privacy =>
    .ok ({ emotion := emotionResult
           depression := depressionResult
           llm_analysis := none
           anonymized_text := none }, none)
  | .anonymized => do
    let anonymized := removePii ta text
    let llmAnalysis ← ta.llmDetailed anonymized
    .ok ({ emotion := emotionResult
           depression := depressionResult
           llm_analysis := some llmAnalysis
           anonymized_text := some anonymized }, some anonymized)

/-- C1: For every input text (including the empty string), calling the Text
Pipeline's `analyze` with `privacy_mode = FULL_PRIVACY` returns
`outbound_text = None` and a record whose `llm_analysis` and
`anonymized_text` fields are both `None`.  (The two local classifiers are
external models returning a full, hence nonempty, score distribution; that
is the only hypothesis.) -/
theorem full_privacy_yields_no_outbound_text (ta : TextAnalyzer) (text : String)
    (h1 : ta.emotionClassifier text ≠ []) (h2 : ta.depressionClassifier text ≠ []) :
    ∃ e d, textAnalyze ta text PrivacyMode.full_privacy =
      .ok ({ emotion := e
             depression := d
             llm_analysis := none
             anonymized_text := none }, none) := by
  obtain ⟨dom1, hd1⟩ := Option.isSome_iff_exists.mp
    (pyMaxBy_isSome (fun e : ScoreEntry => e.score) _ h1)
  obtain ⟨dom2, hd2⟩ := Option.isSome_iff_exists.mp
    (pyMaxBy_isSome (fun e : ScoreEntry => e.score) _ h2)
  refine ⟨{ dominant_emotion := dom1.label
            confidence := dom1.score
            all_emotions := ta.emotionClassifier text },
          { depression_level := dom2.label
            confidence := dom2.score
            severity := severityMapGet dom2.label
            all_scores := ta.depressionClassifier text }, ?_⟩
  simp [textAnalyze, analyzeEmotionLocal, analyzeDepressionLocal, hd1, hd2]
  rfl

/-- A concrete `TextAnalyzer` with mocked external models, used to
instantiate the text-pipeline theorems. -/
def mockTextAnalyzer : TextAnalyzer where
  nlpEnts := fun _ => []
  emotionClassifier := fun _ => [⟨"joy", 1⟩]
  depressionClassifier := fun _ => [⟨"not depression", 1⟩]
  llmDetailed := fun _ => .error "LLM unavailable in mock"

theorem full_privacy_yields_no_outbound_text_witness :
    mockTextAnalyzer.emotionClassifier "" ≠ [] ∧
    mockTextAnalyzer.depressionClassifier "" ≠ [] ∧
    ∃ e d, textAnalyze mockTextAnalyzer "" PrivacyMode.full_privacy =
      .ok ({ emotion := e
             depression := d
             llm_analysis := none
             anonymized_text := none }, none) :=
  ⟨by decide, by decide,
    full_privacy_yields_no_outbound_text mockTextAnalyzer "" (by decide) (by decide)⟩

/-! ### Evidence Assembler / Final Scorer (`MultimodalAnalysisPipeline._get_llm_assessment`) -/

/-- The fixed-shape JSON risk assessment parsed from the final-scoring LLM
response (`parallel_pipeline.py`).  A successfully parsed response is modeled
as a fully populated record; the claims below only concern the failure path,
where the code substitutes a fixed dict. -/
structure LlmAssessment where
  overall_mental_health_score : ℚ
  risk_level : String
  confidence : ℚ
  key_indicators : List String
  recommendations : List String
  areas_of_concern : List String
  positive_indicators : List String
  distribution_insights : String
deriving DecidableEq, Repr

/-- The fixed fallback record of the `except` branch of
`MultimodalAnalysisPipeline._get_llm_assessment` in `parallel_pipeline.py`. -/
def parallelFallbackAssessment : LlmAssessment where
  overall_mental_health_score := 50
  risk_level := "moderate"
  confidence := 1/2
  key_indicators := ["LLM unavailable"]
  recommendations := ["Consult healthcare professional"]
  areas_of_concern := ["Unable to complete full analysis"]
  positive_indicators := []
  distribution_insights := "Full distribution analysis unavailable due to LLM error"

/-- The `try`/`except` of `_get_llm_assessment`: the Groq chat-completion call
(`callResult`, an exception or the raw message content) followed by
`json.loads` (`jsonLoads`, `none` when the content is not parseable).  Any
exception in the `try` block yields the fixed fallback dict; the prompt built
from the (already collected) modality results is consumed by the external
call and does not influence this control flow. -/
def getLlmAssessment (callResult : Except String String)
    (jsonLoads : String → Option LlmAssessment) : LlmAssessment :=
  match callResult with
  | .error _ => parallelFallbackAssessment
  | .ok content =>
    match jsonLoads content with
    | none => parallelFallbackAssessment
    | some assessment => assessment

/-- C4: If the LLM call inside the Final Scorer raises any exception or its
response cannot be parsed, the Final Scorer returns, without propagating the
exception, the fixed fallback record with overall score 50, risk level
"moderate", confidence 0.5 and key indicators ["LLM unavailable"], and this
fallback is the same value on every such failing call (it is one constant). -/
theorem llm_failure_yields_fixed_fallback (callResult : Except String String)
    (jsonLoads : String → Option LlmAssessment)
    (hfail : (∃ e, callResult = .error e) ∨
      (∃ content, callResult = .ok content ∧ jsonLoads content = none)) :
    getLlmAssessment callResult jsonLoads = parallelFallbackAssessment ∧
    parallelFallbackAssessment.overall_mental_health_score = 50 ∧
    parallelFallbackAssessment.risk_level = "moderate" ∧
    parallelFallbackAssessment.confidence = 1/2 ∧
    parallelFallbackAssessment.key_indicators = ["LLM unavailable"] := by
  refine ⟨?_, rfl, rfl, rfl, rfl⟩
  rcases hfail with ⟨e, he⟩ | ⟨content, hc, hp⟩
  · rw [he]; rfl
  · rw [hc]
    simp [getLlmAssessment, hp]

theorem llm_failure_yields_fixed_fallback_witness :
    getLlmAssessment (.error "httpx.ConnectError") (fun _ => none) =
      parallelFallbackAssessment ∧
    parallelFallbackAssessment.overall_mental_health_score = 50 ∧
    parallelFallbackAssessment.risk_level = "moderate" ∧
    parallelFallbackAssessment.confidence = 1/2 ∧
    parallelFallbackAssessment.key_indicators = ["LLM unavailable"] :=
  llm_failure_yields_fixed_fallback (.error "httpx.ConnectError") (fun _ => none)
    (Or.inl ⟨"httpx.ConnectError", rfl⟩)

/-! ### The text-only journal path (`src/audio/depression_pipeline_audio.py`) -/

/-- Result dict of the audio emotion classifier
(`AudioEmotionAnalyzer.analyze`). -/
structure AudioEmotionResult where
  emotion : String
  confidence : ℚ
  all_emotions : List ScoreEntry
deriving DecidableEq, Repr

/-- Depression dict of the audio pipeline's `analyze_depression_local`
(that variant carries no `all_scores` field). -/
structure AudioPipeDepression where
  depression_level : String
  confidence : ℚ
  severity : ℕ
deriving DecidableEq, Repr

/-- Text-analysis dict consumed by the audio pipeline's summary builder. -/
structure AudioPipeTextAnalysis where
  emotion : EmotionResult
  depression : AudioPipeDepression
deriving DecidableEq, Repr

/-- Summary dict built by `VideoAnalysisPipeline._generate_summary`
(`depression_pipeline_audio.py`). -/
structure AudioSummary where
  overall_risk_score : ℚ
  risk_level : String
  audio_emotion : String
  text_emotion : String
  depression_level : String
deriving DecidableEq, Repr

/-- `VideoAnalysisPipeline._generate_summary`: average the three risk
factors, round the reported score to 2 decimals, threshold the (unrounded)
average for the risk level. -/
def generateSummaryAudio (audioEmotion : AudioEmotionResult)
    (textAnalysis : AudioPipeTextAnalysis) : AudioSummary :=
  let depression := textAnalysis.depression
  let emotion := textAnalysis.emotion
  let riskFactors : List ℚ :=
    [(depression.severity : ℚ),
     if emotion.dominant_emotion ∈ ["sadness", "fear", "anger"] then 5 else 0,
     if audioEmotion.emotion ∈ ["sad", "angry"] then 5 else 0]
  let overallRisk := riskFactors.sum / riskFactors.length
  let riskLevel :=
    if overallRisk < 3 then "Low" else if overallRisk < 6 then "Moderate" else "High"
  { overall_risk_score := roundTo 2 overallRisk
    risk_level := riskLevel
    audio_emotion := audioEmotion.emotion
    text_emotion := emotion.dominant_emotion
    depression_level := depression.depression_level }

/-- The claim's formula, stated in its own words: the average of the
depression severity, a 5-point penalty for a negative dominant text emotion,
and a 5-point penalty for a negative dominant audio emotion. -/
def claimedTextOnlyAverage (audioEmotion : AudioEmotionResult)
    (textAnalysis : AudioPipeTextAnalysis) : ℚ :=
  ((textAnalysis.depression.severity : ℚ) +
   (if textAnalysis.emotion.dominant_emotion ∈ ["sadness", "fear", "anger"] then 5 else 0) +
   (if audioEmotion.emotion ∈ ["sad", "angry"] then 5 else 0)) / 3

/-- Concrete inputs on which the reported text-only risk score differs from
the exact average: severity 0, dominant text emotion "sadness" (+5), neutral
audio. -/
def sadTextNeutralAudio : AudioEmotionResult where
  emotion := "neutral"
  confidence := 9/10
  all_emotions := [⟨"neutral", 9/10⟩, ⟨"happy", 1/30⟩, ⟨"sad", 1/30⟩, ⟨"angry", 1/30⟩]

def sadTextAnalysisInput : AudioPipeTextAnalysis where
  emotion := { dominant_emotion := "sadness", confidence := 4/5, all_emotions := [⟨"sadness", 4/5⟩, ⟨"joy", 1/5⟩] }
  depression := { depression_level := "not depression", confidence := 9/10, severity := 0 }

/-- C5 counterexample: on the concrete input above the claimed average of the
three signals is 5/3, but the summary's reported overall risk score is the
rounded value 1.67 ≠ 5/3, so the reported score does not equal the average. -/
theorem text_only_risk_score_not_exact_average :
    claimedTextOnlyAverage sadTextNeutralAudio sadTextAnalysisInput = 5/3 ∧
    (generateSummaryAudio sadTextNeutralAudio sadTextAnalysisInput).overall_risk_score
      = 167/100 ∧
    (167/100 : ℚ) ≠ 5/3 := by
  refine ⟨?_, ?_, by norm_num⟩
  · simp [claimedTextOnlyAverage, sadTextNeutralAudio, sadTextAnalysisInput]
  · simp [generateSummaryAudio, sadTextNeutralAudio, sadTextAnalysisInput]
    norm_num [roundTo, roundHalfEven]

/-- C5 (amended): the summary's overall risk score equals the average of the
three signals rounded to 2 decimal places, and the risk level is "Low" /
"Moderate" / "High" according to whether the unrounded average is below 3,
below 6, or at least 6. -/
theorem text_only_risk_summary_formula (audioEmotion : AudioEmotionResult)
    (textAnalysis : AudioPipeTextAnalysis) :
    (generateSummaryAudio audioEmotion textAnalysis).overall_risk_score =
      roundTo 2 (claimedTextOnlyAverage audioEmotion textAnalysis) ∧
    (generateSummaryAudio audioEmotion textAnalysis).risk_level =
      (if claimedTextOnlyAverage audioEmotion textAnalysis < 3 then "Low"
       else if claimedTextOnlyAverage audioEmotion textAnalysis < 6 then "Moderate"
       else "High") := by
  have hsum : ((textAnalysis.depression.severity : ℚ) +
      ((if textAnalysis.emotion.dominant_emotion ∈ ["sadness", "fear", "anger"]
        then (5:ℚ) else 0) +
       ((if audioEmotion.emotion ∈ ["sad", "angry"] then (5:ℚ) else 0) + 0))) / 3 =
      claimedTextOnlyAverage audioEmotion textAnalysis := by
    unfold claimedTextOnlyAverage
    ring
  constructor
  · show roundTo 2 _ = _
    rw [← hsum]
    norm_num [List.sum_cons]
  · show (if _ < (3:ℚ) then "Low" else _) = _
    rw [← hsum]
    norm_num [List.sum_cons]

/-! ### Video Emotion Scanner + Interval Aggregator (`emotion_detector.py`)

The scanner is generic in the decoded frame type.  Its three external models
(spec §6): the face detector (`_detect_faces_mtcnn`, MTCNN plus the
`prob > 0.9` filter), the frame-crop (`frame[y:y+h, x:x+w]`, a numpy view)
and the face-emotion classifier (`detect_emotion`, returning the predicted
label with the full softmax dict) are fields of the `EmotionDetector`
structure; the scan loop and the aggregation arithmetic are embedded code. -/

/-- A face box as produced by `_detect_faces_mtcnn`: `(x, y, w, h, prob)`. -/
structure FaceBox where
  x : ℕ
  y : ℕ
  w : ℕ
  h : ℕ
  conf : ℚ
deriving DecidableEq, Repr

/-- One per-frame detection record appended to
`current_interval['detections']`. -/
structure Detection where
  emotion : String
  probabilities : List ScoreEntry
deriving DecidableEq, Repr

structure EmotionDetector (Frame : Type) where
  emotionLabels : List String
  detectFaces : Frame → List FaceBox
  crop : Frame → FaceBox → Frame
  detectEmotion : Frame → String × List ScoreEntry

/-- The mutable `current_interval` dict of the scan loop. -/
structure CurrentInterval where
  interval_number : ℕ
  start_time : ℚ
  end_time : ℚ
  detections : List Detection
  frames_with_face : ℕ
  frames_processed : ℕ
  frames_sampled : ℕ
deriving DecidableEq, Repr

/-- The per-interval record returned by `_calculate_interval_scores`. -/
structure IntervalScore where
  interval_number : ℕ
  start_time : ℚ
  end_time : ℚ
  frames_processed : ℕ
  frames_sampled : ℕ
  frames_with_face : ℕ
  face_detection_rate : ℚ
  emotion_scores : List ScoreEntry
  dominant_emotion : String
  detections_count : ℕ
deriving DecidableEq, Repr

/-- The `emotion_score_accumulator` value for one label: each detection's
probability dict contributes its entries for that label. -/
def accumScore (dets : List Detection) (l : String) : ℚ :=
  (dets.map
    (fun d => ((d.probabilities.filter (fun e => e.label = l)).map
      (fun e => e.score)).sum)).sum

/-- `EmotionDetector._calculate_interval_scores`.  The emotion-score dict is
built by iterating `self.emotion_labels` (the image model's label set, whose
labels are distinct); Python's `max` over its items raises on an empty dict,
modeled by `Except.error`. -/
def calcIntervalScores (labels : List String) (d : CurrentInterval) :
    Except String IntervalScore :=
  if d.detections.isEmpty then
    .ok { interval_number := d.interval_number + 1
          start_time := d.start_time
          end_time := d.end_time
          frames_processed := d.frames_processed
          frames_sampled := d.frames_sampled
          frames_with_face := 0
          face_detection_rate := 0
          emotion_scores := labels.map (fun l => ⟨l, 0⟩)
          dominant_emotion := "none"
          detections_count := 0 }
  else
    let totalDetections := d.detections.length
    let detectionRate : ℚ := (d.frames_with_face : ℚ) / (max d.frames_sampled 1 : ℕ)
    let scores : List ScoreEntry := labels.map
      (fun l => ⟨l, roundTo 2 (accumScore d.detections l / totalDetections *
        detectionRate * 100)⟩)
    match pyMaxBy (fun e : ScoreEntry => e.score) scores with
    | none => .error "ValueError: max() arg is an empty sequence"
    | some dominant =>
      .ok { interval_number := d.interval_number + 1
            start_time := roundTo 2 d.start_time
            end_time := roundTo 2 d.end_time
            frames_processed := d.frames_processed
            frames_sampled := d.frames_sampled
            frames_with_face := d.frames_with_face
            face_detection_rate :=
              roundTo 3 ((d.frames_with_face : ℚ) / (max d.frames_sampled 1 : ℕ))
            emotion_scores := scores
            dominant_emotion := dominant.label
            detections_count := totalDetections }

/-- A freshly started interval (`current_interval` initialisation and the
"Start new interval" block, with `n` the number of closed intervals). -/
def freshInterval (n intervalSeconds : ℕ) : CurrentInterval where
  interval_number := n
  start_time := (n : ℚ) * intervalSeconds
  end_time := ((n : ℚ) + 1) * intervalSeconds
  detections := []
  frames_with_face := 0
  frames_processed := 0
  frames_sampled := 0

/-- State of the `while True` scan loop. -/
structure LoopState where
  intervalsData : List IntervalScore
  cur : CurrentInterval
  frameCount : ℕ
  intervalFrameCount : ℕ
deriving DecidableEq, Repr

/-- The body of the scan loop on a sampled frame: bump `frames_sampled`, run
face detection, keep the largest-area face if any (Python's `max` with key
`f[2]*f[3]`, first maximum on ties), classify its crop and append the
detection, then bump `frames_processed`. -/
def sampleUpdate {Frame : Type} (det : EmotionDetector Frame)
    (cur : CurrentInterval) (f : Frame) : CurrentInterval :=
  let cur1 := { cur with frames_sampled := cur.frames_sampled + 1 }
  let cur2 :=
    match pyMaxBy (fun fb : FaceBox => fb.w * fb.h) (det.detectFaces f) with
    | none => cur1
    | some fb =>
      let res := det.detectEmotion (det.crop f fb)
      { cur1 with
        detections := cur1.detections ++ [(⟨res.1, res.2⟩ : Detection)]
        frames_with_face := cur1.frames_with_face + 1 }
  { cur2 with frames_processed := cur2.frames_processed + 1 }

/-- One iteration of the scan loop on a successfully read frame.  Skipped
frames (`frame_count % frame_skip != 0`) count toward `frames_processed` and
`continue` — in particular they skip the interval-close check. -/
def stepFrame {Frame : Type} (det : EmotionDetector Frame)
    (intervalSeconds framesPerInterval totalFrames frameSkip : ℕ)
    (s : LoopState) (f : Frame) : Except String LoopState :=
  let fc := s.frameCount + 1
  let ifc := s.intervalFrameCount + 1
  if fc % frameSkip ≠ 0 then
    .ok { s with
          frameCount := fc
          intervalFrameCount := ifc
          cur := { s.cur with frames_processed := s.cur.frames_processed + 1 } }
  else
    let cur3 := sampleUpdate det s.cur f
    if ifc ≥ framesPerInterval ∨ fc ≥ totalFrames then
      match calcIntervalScores det.emotionLabels cur3 with
      | .error e => .error e
      | .ok r =>
        .ok { intervalsData := s.intervalsData ++ [r]
              cur := freshInterval (s.intervalsData.length + 1) intervalSeconds
              frameCount := fc
              intervalFrameCount := 0 }
    else
      .ok { s with cur := cur3, frameCount := fc, intervalFrameCount := ifc }

/-- `total_scores` accumulation of `_calculate_overall_summary`
(a `defaultdict(float)` keyed in first-appearance order). -/
def upsertScore (acc : List ScoreEntry) (l : String) (v : ℚ) : List ScoreEntry :=
  match acc with
  | [] => [⟨l, v⟩]
  | e :: rest =>
    if e.label = l then ⟨e.label, e.score + v⟩ :: rest else e :: upsertScore rest l v

structure OverallSummary where
  total_intervals : ℕ
  average_emotion_scores : List ScoreEntry
  overall_dominant_emotion : String
deriving DecidableEq, Repr

/-- `EmotionDetector._calculate_overall_summary`: empty interval list gives
the empty dict (modeled `none`). -/
def calcOverallSummary (intervals : List IntervalScore) :
    Except String (Option OverallSummary) :=
  if intervals.isEmpty then .ok none
  else
    let totals := intervals.foldl
      (fun acc i => i.emotion_scores.foldl (fun a e => upsertScore a e.label e.score) acc)
      []
    let avgScores := totals.map
      (fun e => (⟨e.label, roundTo 2 (e.score / intervals.length)⟩ : ScoreEntry))
    match pyMaxBy (fun e : ScoreEntry => e.score) avgScores with
    | none => .error "ValueError: max() arg is an empty sequence"
    | some dominant =>
      .ok (some { total_intervals := intervals.length
                  average_emotion_scores := avgScores
                  overall_dominant_emotion := dominant.label })

/-- The `video_info` dict of the scan results. -/
structure VideoInfo where
  path : String
  fps : ℚ
  duration_seconds : ℚ
  total_frames : ℕ
  interval_seconds : ℕ
  frame_skip : ℕ
  optimization : String
deriving DecidableEq, Repr

structure ScanResults where
  video_info : VideoInfo
  emotion_labels : List String
  intervals : List IntervalScore
  summary : Option OverallSummary
deriving DecidableEq, Repr

/-- The decoded video as `cv2.VideoCapture` presents it: whether it opened,
its reported properties, and the sequence of frames `cap.read()` delivers
before its first failed read (a failed read and the end of the stream are
indistinguishable to the caller). -/
structure CapturedVideo (Frame : Type) where
  opened : Bool
  fps : ℚ
  totalFrames : ℕ
  frames : List Frame

/-- `EmotionDetector.analyze_video_by_intervals_optimized` (invoked by the
pipelines without a progress tracker).  The trailing, still-open interval is
not in `intervals_data` when the read loop ends before closing it. -/
def analyzeVideoByIntervals {Frame : Type} (det : EmotionDetector Frame)
    (videoPath : String) (cap : CapturedVideo Frame)
    (intervalSeconds frameSkip : ℕ) : Except String ScanResults :=
  if !cap.opened then .error ("Could not open video file " ++ videoPath)
  else if cap.fps = 0 then .error "ZeroDivisionError: float division by zero"
  else
    let duration : ℚ := (cap.totalFrames : ℚ) / cap.fps
    let framesPerInterval : ℕ := (pyInt (cap.fps * intervalSeconds)).toNat
    let init : LoopState :=
      { intervalsData := []
        cur := freshInterval 0 intervalSeconds
        frameCount := 0
        intervalFrameCount := 0 }
    match cap.frames.foldlM
        (stepFrame det intervalSeconds framesPerInterval cap.totalFrames frameSkip)
        init with
    | .error e => .error e
    | .ok st =>
      match calcOverallSummary st.intervalsData with
      | .error e => .error e
      | .ok summary =>
        .ok { video_info :=
              { path := videoPath
                fps := cap.fps
                duration_seconds := duration
                total_frames := cap.totalFrames
                interval_seconds := intervalSeconds
                frame_skip := frameSkip
                optimization := "Processed 1/" ++ toString frameSkip ++
                  " frames for " ++ toString frameSkip ++ "x speedup" }
              emotion_labels := det.emotionLabels
              intervals := st.intervalsData
              summary := summary }

/-- A mocked detector whose face detector finds one face on frame `0` and
none elsewhere (`Frame := ℕ`). -/
def oneFaceDetector : EmotionDetector ℕ where
  emotionLabels := ["happy"]
  detectFaces := fun f => if f = 0 then [⟨0, 0, 10, 10, 19/20⟩] else []
  crop := fun f _ => f
  detectEmotion := fun _ => ("happy", [⟨"happy", 1⟩])

/-- A mocked detector that never finds a face. -/
def noFaceDetector : EmotionDetector ℕ where
  emotionLabels := ["happy"]
  detectFaces := fun _ => []
  crop := fun f _ => f
  detectEmotion := fun _ => ("happy", [⟨"happy", 1⟩])

/-- A 3-frame, 3 fps video: with 1-second intervals the scan closes exactly
one interval covering all 3 frames. -/
def threeFrameCap : CapturedVideo ℕ where
  opened := true
  fps := 3
  totalFrames := 3
  frames := [0, 1, 2]

/-- C2 counterexample: the interval record produced by the aggregator for the
3-frame video (3 frames sampled, 1 with a face, one detection with
probability 1 for "happy") reports `face_detection_rate = 0.333`, which is
not `frames_with_face / max(frames_sampled, 1) = 1/3`, and reports the
"happy" score `33.33`, which is not `(mean probability) × rate × 100 =
100/3`: both values are rounded before being stored. -/
theorem interval_scores_rounded_counterexample :
    (analyzeVideoByIntervals oneFaceDetector "video.mp4" threeFrameCap 1 1).toOption.map
        (fun r => r.intervals.map
          (fun i => (i.face_detection_rate, i.frames_with_face, i.frames_sampled,
            i.emotion_scores))) =
      some [(333/1000, 1, 3, [⟨"happy", 3333/100⟩])] ∧
    ((333 : ℚ)/1000) ≠ (1 : ℚ) / ((max 3 1 : ℕ) : ℚ) ∧
    ((3333 : ℚ)/100) ≠ (1 : ℚ) / 1 * ((1 : ℚ) / ((max 3 1 : ℕ) : ℚ)) * 100 := by
  refine ⟨?_, by norm_num, by norm_num⟩
  simp [analyzeVideoByIntervals, stepFrame, sampleUpdate, calcIntervalScores,
    freshInterval, pyInt, pyMaxBy, calcOverallSummary, oneFaceDetector, threeFrameCap,
    accumScore, upsertScore, except_bind_ok, except_bind_err]
  norm_num [roundTo, roundHalfEven]
  exact ⟨_, rfl, rfl⟩

/-- C2 (amended): for every interval record built by
`_calculate_interval_scores` from a window with at least one detection (and
the model's nonempty label set), `face_detection_rate` is
`frames_with_face / max(frames_sampled, 1)` rounded to 3 decimal places, and
the score stored for each label L is (mean raw probability of L over the
window's detections) × (unrounded detection rate) × 100, rounded to 2 decimal
places. -/
theorem interval_scores_formula (labels : List String) (d : CurrentInterval)
    (hl : labels ≠ []) (hd : d.detections ≠ []) :
    ∃ r, calcIntervalScores labels d = .ok r ∧
      r.face_detection_rate =
        roundTo 3 ((d.frames_with_face : ℚ) / ((max d.frames_sampled 1 : ℕ) : ℚ)) ∧
      r.frames_with_face = d.frames_with_face ∧
      r.frames_sampled = d.frames_sampled ∧
      r.emotion_scores = labels.map
        (fun l => ⟨l, roundTo 2 (accumScore d.detections l / (d.detections.length : ℚ) *
          ((d.frames_with_face : ℚ) / ((max d.frames_sampled 1 : ℕ) : ℚ)) * 100)⟩) := by
  have hne : d.detections.isEmpty = false := by
    simp [List.isEmpty_iff, hd]
  have hscores : (labels.map
      (fun l => (⟨l, roundTo 2 (accumScore d.detections l / (d.detections.length : ℚ) *
        ((d.frames_with_face : ℚ) / ((max d.frames_sampled 1 : ℕ) : ℚ)) * 100)⟩ :
        ScoreEntry))) ≠ [] := by
    simpa using hl
  obtain ⟨dom, hdom⟩ := Option.isSome_iff_exists.mp
    (pyMaxBy_isSome (fun e : ScoreEntry => e.score) _ hscores)
  refine ⟨{ interval_number := d.interval_number + 1
            start_time := roundTo 2 d.start_time
            end_time := roundTo 2 d.end_time
            frames_processed := d.frames_processed
            frames_sampled := d.frames_sampled
            frames_with_face := d.frames_with_face
            face_detection_rate :=
              roundTo 3 ((d.frames_with_face : ℚ) / ((max d.frames_sampled 1 : ℕ) : ℚ))
            emotion_scores := labels.map
              (fun l => ⟨l, roundTo 2 (accumScore d.detections l /
                (d.detections.length : ℚ) *
                ((d.frames_with_face : ℚ) / ((max d.frames_sampled 1 : ℕ) : ℚ)) * 100)⟩)
            dominant_emotion := dom.label
            detections_count := d.detections.length }, ?_, rfl, rfl, rfl, rfl⟩
  simp only [calcIntervalScores, hne, Bool.false_eq_true, if_false, hdom]

/-- A 10-frame video whose decoder delivers only one frame before the read
fails (`total_frames` declares 10). -/
def truncatedCap : CapturedVideo ℕ where
  opened := true
  fps := 1
  totalFrames := 10
  frames := [0]

/-- C7 counterexample: a frame-read failure mid-stream (1 frame delivered of
a declared 10) does not abort the scan: the call returns a successful result
(with the partial timeline), refuting the claim that a mid-stream decode
error surfaces an error to the caller. -/
theorem midstream_read_failure_returns_success :
    truncatedCap.frames.length < truncatedCap.totalFrames ∧
    (analyzeVideoByIntervals noFaceDetector "video.mp4" truncatedCap 5 1).isOk = true := by
  refine ⟨by norm_num [truncatedCap], ?_⟩
  simp [analyzeVideoByIntervals, stepFrame, sampleUpdate, calcIntervalScores,
    freshInterval, pyInt, pyMaxBy, calcOverallSummary, noFaceDetector, truncatedCap,
    accumScore, upsertScore]
  rfl

/-! Structural lemmas about the scan loop, used for the sampling-arithmetic
and error-propagation claims. -/


theorem calcIntervalScores_ok (labels : List String) (d : CurrentInterval)
    (hl : labels ≠ []) :
    ∃ r, calcIntervalScores labels d = .ok r ∧
      r.frames_processed = d.frames_processed ∧
      r.frames_sampled = d.frames_sampled ∧
      r.emotion_scores ≠ [] := by
  by_cases he : d.detections.isEmpty
  · refine ⟨{ interval_number := d.interval_number + 1
              start_time := d.start_time
              end_time := d.end_time
              frames_processed := d.frames_processed
              frames_sampled := d.frames_sampled
              frames_with_face := 0
              face_detection_rate := 0
              emotion_scores := labels.map (fun l => ⟨l, 0⟩)
              dominant_emotion := "none"
              detections_count := 0 }, ?_, rfl, rfl, by simpa using hl⟩
    simp only [calcIntervalScores, he, if_true]
  · have hscores : (labels.map
        (fun l => (⟨l, roundTo 2 (accumScore d.detections l / (d.detections.length : ℚ) *
          ((d.frames_with_face : ℚ) / ((max d.frames_sampled 1 : ℕ) : ℚ)) * 100)⟩ :
          ScoreEntry))) ≠ [] := by
      simpa using hl
    obtain ⟨dom, hdom⟩ := Option.isSome_iff_exists.mp
      (pyMaxBy_isSome (fun e : ScoreEntry => e.score) _ hscores)
    refine ⟨{ interval_number := d.interval_number + 1
              start_time := roundTo 2 d.start_time
              end_time := roundTo 2 d.end_time
              frames_processed := d.frames_processed
              frames_sampled := d.frames_sampled
              frames_with_face := d.frames_with_face
              face_detection_rate :=
                roundTo 3 ((d.frames_with_face : ℚ) / ((max d.frames_sampled 1 : ℕ) : ℚ))
              emotion_scores := labels.map
                (fun l => ⟨l, roundTo 2 (accumScore d.detections l /
                  (d.detections.length : ℚ) *
                  ((d.frames_with_face : ℚ) / ((max d.frames_sampled 1 : ℕ) : ℚ)) * 100)⟩)
              dominant_emotion := dom.label
              detections_count := d.detections.length }, ?_, rfl, rfl, by simpa using hl⟩
    simp only [calcIntervalScores, he, Bool.false_eq_true, if_false, hdom]

theorem sampleUpdate_frames_processed {Frame : Type} (det : EmotionDetector Frame)
    (cur : CurrentInterval) (f : Frame) :
    (sampleUpdate det cur f).frames_processed = cur.frames_processed + 1 := by
  simp only [sampleUpdate]
  cases pyMaxBy (fun fb : FaceBox => fb.w * fb.h) (det.detectFaces f)
  · rfl
  · rfl

theorem sampleUpdate_frames_sampled {Frame : Type} (det : EmotionDetector Frame)
    (cur : CurrentInterval) (f : Frame) :
    (sampleUpdate det cur f).frames_sampled = cur.frames_sampled + 1 := by
  simp only [sampleUpdate]
  cases pyMaxBy (fun fb : FaceBox => fb.w * fb.h) (det.detectFaces f)
  · rfl
  · rfl

theorem stepFrame_skip {Frame : Type} (det : EmotionDetector Frame)
    (i fpi n k : ℕ) (s : LoopState) (f : Frame)
    (h : (s.frameCount + 1) % k ≠ 0) :
    stepFrame det i fpi n k s f =
      .ok { s with
            frameCount := s.frameCount + 1
            intervalFrameCount := s.intervalFrameCount + 1
            cur := { s.cur with frames_processed := s.cur.frames_processed + 1 } } := by
  simp only [stepFrame, if_pos h]

theorem stepFrame_sampled_noclose {Frame : Type} (det : EmotionDetector Frame)
    (i fpi n k : ℕ) (s : LoopState) (f : Frame)
    (h1 : (s.frameCount + 1) % k = 0)
    (h2 : ¬(s.intervalFrameCount + 1 ≥ fpi ∨ s.frameCount + 1 ≥ n)) :
    stepFrame det i fpi n k s f =
      .ok { s with
            cur := sampleUpdate det s.cur f
            frameCount := s.frameCount + 1
            intervalFrameCount := s.intervalFrameCount + 1 } := by
  simp only [stepFrame, if_neg (not_not_intro h1), if_neg h2]

theorem stepFrame_sampled_close {Frame : Type} (det : EmotionDetector Frame)
    (i fpi n k : ℕ) (s : LoopState) (f : Frame) (r : IntervalScore)
    (h1 : (s.frameCount + 1) % k = 0)
    (h2 : s.intervalFrameCount + 1 ≥ fpi ∨ s.frameCount + 1 ≥ n)
    (hr : calcIntervalScores det.emotionLabels (sampleUpdate det s.cur f) = .ok r) :
    stepFrame det i fpi n k s f =
      .ok { intervalsData := s.intervalsData ++ [r]
            cur := freshInterval (s.intervalsData.length + 1) i
            frameCount := s.frameCount + 1
            intervalFrameCount := 0 } := by
  simp only [stepFrame, if_neg (not_not_intro h1), if_pos h2, hr]

/-- Total `frames_processed` over the closed interval records. -/
def sumProcessed (l : List IntervalScore) : ℕ :=
  (l.map (fun i => i.frames_processed)).sum

/-- Total `frames_sampled` over the closed interval records. -/
def sumSampled (l : List IntervalScore) : ℕ :=
  (l.map (fun i => i.frames_sampled)).sum

theorem sumProcessed_append (l : List IntervalScore) (r : IntervalScore) :
    sumProcessed (l ++ [r]) = sumProcessed l + r.frames_processed := by
  simp [sumProcessed]

theorem sumSampled_append (l : List IntervalScore) (r : IntervalScore) :
    sumSampled (l ++ [r]) = sumSampled l + r.frames_sampled := by
  simp [sumSampled]

/-- The loop invariant of the scan: frames are consumed one per iteration; the
current interval holds exactly the frames since the last close, and closes
always happen on sampled frames (multiples of `frame_skip`), so every closed
interval covers a `frame_skip`-aligned window. -/
def ScanInv (k : ℕ) (s : LoopState) : Prop :=
  s.intervalFrameCount = s.cur.frames_processed ∧
  s.cur.frames_processed ≤ s.frameCount ∧
  k ∣ (s.frameCount - s.cur.frames_processed) ∧
  sumProcessed s.intervalsData = s.frameCount - s.cur.frames_processed ∧
  sumSampled s.intervalsData = (s.frameCount - s.cur.frames_processed) / k ∧
  s.cur.frames_sampled =
    s.frameCount / k - (s.frameCount - s.cur.frames_processed) / k ∧
  ∀ I ∈ s.intervalsData, I.frames_processed = k * I.frames_sampled ∧
    I.emotion_scores ≠ []

theorem scanInv_init (k intervalSeconds : ℕ) :
    ScanInv k { intervalsData := []
                cur := freshInterval 0 intervalSeconds
                frameCount := 0
                intervalFrameCount := 0 } := by
  refine ⟨rfl, le_refl _, ⟨0, rfl⟩, rfl, by simp [sumSampled], by simp [freshInterval], ?_⟩
  intro I hI
  exact absurd hI (List.not_mem_nil I)

theorem scanInv_step {Frame : Type} (det : EmotionDetector Frame)
    (i fpi n k : ℕ) (hk : 1 ≤ k) (hl : det.emotionLabels ≠ [])
    (s : LoopState) (f : Frame) (hinv : ScanInv k s) :
    ∃ s', stepFrame det i fpi n k s f = .ok s' ∧ ScanInv k s' ∧
      s'.frameCount = s.frameCount + 1 := by
  obtain ⟨h1, h2, h3, h4, h5, h6, h7⟩ := hinv
  by_cases hmod : (s.frameCount + 1) % k = 0
  · -- sampled frame
    have hkpos : 0 < k := hk
    have hdvd1 : k ∣ s.frameCount + 1 := Nat.dvd_of_mod_eq_zero hmod
    have hsucc : (s.frameCount + 1) / k = s.frameCount / k + 1 := by
      rw [Nat.succ_div, if_pos hdvd1]
    have hble : (s.frameCount - s.cur.frames_processed) / k ≤ s.frameCount / k :=
      Nat.div_le_div_right (Nat.sub_le _ _)
    by_cases hclose : s.intervalFrameCount + 1 ≥ fpi ∨ s.frameCount + 1 ≥ n
    · obtain ⟨r, hr, hrp, hrs, hrne⟩ :=
        calcIntervalScores_ok det.emotionLabels (sampleUpdate det s.cur f) hl
      refine ⟨_, stepFrame_sampled_close det i fpi n k s f r hmod hclose hr, ?_, rfl⟩
      have hrp' : r.frames_processed = s.cur.frames_processed + 1 := by
        rw [hrp, sampleUpdate_frames_processed]
      have hrs' : r.frames_sampled = s.cur.frames_sampled + 1 := by
        rw [hrs, sampleUpdate_frames_sampled]
      rcases h3 with ⟨b, hb⟩
      rcases hdvd1 with ⟨c, hc⟩
      have hbdiv : (s.frameCount - s.cur.frames_processed) / k = b := by
        rw [hb, Nat.mul_div_cancel_left _ hkpos]
      have hcdiv : (s.frameCount + 1) / k = c := by
        rw [hc, Nat.mul_div_cancel_left _ hkpos]
      have hbc : b < c := by
        have hx : k * b < k * c := by omega
        exact lt_of_mul_lt_mul_left hx (Nat.zero_le k)
      have hmulsub : k * (c - b) + k * b = k * c := by
        rw [← Nat.mul_add, Nat.sub_add_cancel hbc.le]
      refine ⟨rfl, Nat.zero_le _, ?_, ?_, ?_, ?_, ?_⟩
      · show k ∣ (s.frameCount + 1 - 0)
        simpa using ⟨c, hc⟩
      · show sumProcessed (s.intervalsData ++ [r]) = s.frameCount + 1 - 0
        rw [sumProcessed_append, h4, hrp']
        omega
      · show sumSampled (s.intervalsData ++ [r]) = (s.frameCount + 1 - 0) / k
        rw [sumSampled_append, h5, hrs', h6]
        simp only [Nat.sub_zero, hcdiv, hbdiv]
        omega
      · show (0 : ℕ) = (s.frameCount + 1) / k - (s.frameCount + 1 - 0) / k
        simp
      · intro I hI
        rcases List.mem_append.mp hI with hI | hI
        · exact h7 I hI
        · have hIr : I = r := by simpa using hI
          subst hIr
          refine ⟨?_, hrne⟩
          rw [hrp', hrs', h6, hbdiv]
          have hfc : s.frameCount / k = c - 1 := by omega
          rw [hfc]
          have : c - 1 - b + 1 = c - b := by omega
          rw [this]
          omega
    · refine ⟨_, stepFrame_sampled_noclose det i fpi n k s f hmod hclose, ?_, rfl⟩
      have he : s.frameCount + 1 - (s.cur.frames_processed + 1) =
          s.frameCount - s.cur.frames_processed := by omega
      refine ⟨?_, ?_, ?_, ?_, ?_, ?_, h7⟩
      · show s.intervalFrameCount + 1 = (sampleUpdate det s.cur f).frames_processed
        rw [sampleUpdate_frames_processed, h1]
      · show (sampleUpdate det s.cur f).frames_processed ≤ s.frameCount + 1
        rw [sampleUpdate_frames_processed]
        omega
      · show k ∣ (s.frameCount + 1 - (sampleUpdate det s.cur f).frames_processed)
        rw [sampleUpdate_frames_processed, he]
        exact h3
      · show sumProcessed s.intervalsData =
          s.frameCount + 1 - (sampleUpdate det s.cur f).frames_processed
        rw [sampleUpdate_frames_processed, he]
        exact h4
      · show sumSampled s.intervalsData =
          (s.frameCount + 1 - (sampleUpdate det s.cur f).frames_processed) / k
        rw [sampleUpdate_frames_processed, he]
        exact h5
      · show (sampleUpdate det s.cur f).frames_sampled =
          (s.frameCount + 1) / k -
            (s.frameCount + 1 - (sampleUpdate det s.cur f).frames_processed) / k
        rw [sampleUpdate_frames_sampled, sampleUpdate_frames_processed, he, hsucc, h6]
        have hble : (s.frameCount - s.cur.frames_processed) / k ≤ s.frameCount / k :=
          Nat.div_le_div_right (Nat.sub_le _ _)
        omega
  · -- skipped frame
    refine ⟨_, stepFrame_skip det i fpi n k s f hmod, ?_, rfl⟩
    have hkpos : 0 < k := hk
    have hdiv : (s.frameCount + 1) / k = s.frameCount / k := by
      rw [Nat.succ_div,
        if_neg (fun h => hmod (Nat.dvd_iff_mod_eq_zero.mp h))]
      rfl
    have he : s.frameCount + 1 - (s.cur.frames_processed + 1) =
        s.frameCount - s.cur.frames_processed := by omega
    refine ⟨?_, ?_, ?_, ?_, ?_, ?_, h7⟩
    · show s.intervalFrameCount + 1 = s.cur.frames_processed + 1
      omega
    · show s.cur.frames_processed + 1 ≤ s.frameCount + 1
      omega
    · show k ∣ (s.frameCount + 1 - (s.cur.frames_processed + 1))
      rw [he]
      exact h3
    · show sumProcessed s.intervalsData =
        s.frameCount + 1 - (s.cur.frames_processed + 1)
      rw [he]
      exact h4
    · show sumSampled s.intervalsData =
        (s.frameCount + 1 - (s.cur.frames_processed + 1)) / k
      rw [he]
      exact h5
    · show s.cur.frames_sampled =
        (s.frameCount + 1) / k - (s.frameCount + 1 - (s.cur.frames_processed + 1)) / k
      rw [he, hdiv]
      exact h6

theorem scanFold_ok {Frame : Type} (det : EmotionDetector Frame)
    (i fpi n k : ℕ) (hk : 1 ≤ k) (hl : det.emotionLabels ≠ []) :
    ∀ (frames : List Frame) (s : LoopState), ScanInv k s →
      ∃ st, frames.foldlM (stepFrame det i fpi n k) s = .ok st ∧ ScanInv k st ∧
        st.frameCount = s.frameCount + frames.length := by
  intro frames
  induction frames with
  | nil =>
    intro s hs
    exact ⟨s, rfl, hs, by simp⟩
  | cons f rest ih =>
    intro s hs
    obtain ⟨s', hstep, hs', hfc⟩ := scanInv_step det i fpi n k hk hl s f hs
    obtain ⟨st, hfold, hst, hfcr⟩ := ih s' hs'
    refine ⟨st, ?_, hst, by simp only [List.length_cons]; omega⟩
    rw [List.foldlM_cons, hstep, except_bind_ok, hfold]

/-- When the declared frame count is reached on a sampled frame
(`frame_skip` divides it), the loop's final action closed the current
interval, so no frames are left in an unfinished window. -/
theorem scanFold_final_close {Frame : Type} (det : EmotionDetector Frame)
    (i fpi n k : ℕ) (hk : 1 ≤ k) (hl : det.emotionLabels ≠ [])
    (front : List Frame) (f : Frame) (s st : LoopState) (hs : ScanInv k s)
    (hfold : (front ++ [f]).foldlM (stepFrame det i fpi n k) s = .ok st)
    (hdvd : k ∣ (s.frameCount + front.length + 1))
    (hn : s.frameCount + front.length + 1 ≥ n) :
    st.cur.frames_processed = 0 := by
  obtain ⟨s1, hfront, hs1, hfc1⟩ := scanFold_ok det i fpi n k hk hl front s hs
  rw [List.foldlM_append, hfront, except_bind_ok] at hfold
  simp only [List.foldlM_cons, List.foldlM_nil, bind_pure] at hfold
  have hmod : (s1.frameCount + 1) % k = 0 := by
    rw [hfc1]
    exact Nat.dvd_iff_mod_eq_zero.mp hdvd
  have hclose : s1.intervalFrameCount + 1 ≥ fpi ∨ s1.frameCount + 1 ≥ n :=
    Or.inr (by rw [hfc1]; exact hn)
  obtain ⟨r, hr, _, _, _⟩ :=
    calcIntervalScores_ok det.emotionLabels (sampleUpdate det s1.cur f) hl
  rw [stepFrame_sampled_close det i fpi n k s1 f r hmod hclose hr] at hfold
  have hst := (Except.ok.injEq _ _).mp hfold
  rw [← hst]
  rfl

theorem upsertScore_ne_nil (acc : List ScoreEntry) (l : String) (v : ℚ) :
    upsertScore acc l v ≠ [] := by
  cases acc with
  | nil => simp [upsertScore]
  | cons e rest =>
    by_cases he : e.label = l
    · simp [upsertScore, he]
    · simp [upsertScore, he]

theorem foldl_upsert_ne_nil (scores : List ScoreEntry) (acc : List ScoreEntry)
    (h : acc ≠ []) :
    scores.foldl (fun a e => upsertScore a e.label e.score) acc ≠ [] := by
  induction scores generalizing acc with
  | nil => exact h
  | cons e rest ih => exact ih _ (upsertScore_ne_nil acc e.label e.score)

theorem totals_ne_nil (l : List IntervalScore) (acc : List ScoreEntry)
    (hall : ∀ I ∈ l, I.emotion_scores ≠ []) (h : acc ≠ [] ∨ l ≠ []) :
    (l.foldl
      (fun acc i => i.emotion_scores.foldl (fun a e => upsertScore a e.label e.score) acc)
      acc) ≠ [] := by
  induction l generalizing acc with
  | nil =>
    rcases h with h | h
    · exact h
    · exact absurd rfl h
  | cons I rest ih =>
    have hinner :
        (I.emotion_scores.foldl (fun a e => upsertScore a e.label e.score) acc) ≠ [] := by
      by_cases hacc : acc = []
      · subst hacc
        have hIs := hall I (by simp)
        cases hsc : I.emotion_scores with
        | nil => exact absurd hsc hIs
        | cons e es =>
          rw [List.foldl_cons]
          exact foldl_upsert_ne_nil es _ (upsertScore_ne_nil _ _ _)
      · exact foldl_upsert_ne_nil _ _ hacc
    exact ih _ (fun J hJ => hall J (List.mem_cons_of_mem I hJ)) (Or.inl hinner)

theorem calcOverallSummary_ok (l : List IntervalScore)
    (hall : ∀ I ∈ l, I.emotion_scores ≠ []) :
    ∃ o, calcOverallSummary l = .ok o := by
  by_cases he : l.isEmpty
  · exact ⟨none, by simp only [calcOverallSummary, he, if_true]⟩
  · have hlne : l ≠ [] := by simpa [List.isEmpty_iff] using he
    have htot := totals_ne_nil l [] hall (Or.inr hlne)
    have havg : (l.foldl
        (fun acc i => i.emotion_scores.foldl (fun a e => upsertScore a e.label e.score) acc)
        []).map
        (fun e => (⟨e.label, roundTo 2 (e.score / l.length)⟩ : ScoreEntry)) ≠ [] := by
      simpa using htot
    obtain ⟨dom, hdom⟩ := Option.isSome_iff_exists.mp
      (pyMaxBy_isSome (fun e : ScoreEntry => e.score) _ havg)
    refine ⟨some { total_intervals := l.length
                   average_emotion_scores := (l.foldl
                     (fun acc i => i.emotion_scores.foldl
                       (fun a e => upsertScore a e.label e.score) acc) []).map
                     (fun e => (⟨e.label, roundTo 2 (e.score / l.length)⟩ : ScoreEntry))
                   overall_dominant_emotion := dom.label }, ?_⟩
    simp only [calcOverallSummary, he, Bool.false_eq_true, if_false, hdom]

/-- Master lemma: under the scan's preconditions (video opened, nonzero frame
rate, `frame_skip ≥ 1`, nonempty label set) the scan always succeeds, its
reported intervals are the loop's closed intervals, and those satisfy the
scan invariant. -/
theorem analyzeVideo_spec {Frame : Type} (det : EmotionDetector Frame)
    (path : String) (cap : CapturedVideo Frame) (i k : ℕ)
    (hopen : cap.opened = true) (hfps : cap.fps ≠ 0)
    (hk : 1 ≤ k) (hl : det.emotionLabels ≠ []) :
    ∃ st r,
      cap.frames.foldlM
        (stepFrame det i ((pyInt (cap.fps * i)).toNat) cap.totalFrames k)
        { intervalsData := []
          cur := freshInterval 0 i
          frameCount := 0
          intervalFrameCount := 0 } = .ok st ∧
      ScanInv k st ∧ st.frameCount = cap.frames.length ∧
      analyzeVideoByIntervals det path cap i k = .ok r ∧
      r.intervals = st.intervalsData := by
  obtain ⟨st, hfold, hst, hfc⟩ := scanFold_ok det i ((pyInt (cap.fps * i)).toNat)
    cap.totalFrames k hk hl cap.frames _ (scanInv_init k i)
  obtain ⟨o, ho⟩ := calcOverallSummary_ok st.intervalsData
    (fun I hI => (hst.2.2.2.2.2.2 I hI).2)
  refine ⟨st,
    { video_info :=
      { path := path
        fps := cap.fps
        duration_seconds := (cap.totalFrames : ℚ) / cap.fps
        total_frames := cap.totalFrames
        interval_seconds := i
        frame_skip := k
        optimization := "Processed 1/" ++ toString k ++
          " frames for " ++ toString k ++ "x speedup" }
      emotion_labels := det.emotionLabels
      intervals := st.intervalsData
      summary := o }, hfold, hst, by simpa using hfc, ?_, rfl⟩
  simp only [analyzeVideoByIntervals, hopen, Bool.not_true, Bool.false_eq_true, if_false,
    if_neg hfps, hfold, ho]

/-- When every declared frame is actually delivered and `frame_skip` divides
the frame count, the loop closes its last interval on the final frame and
the reported records account for every frame: total sampled is `n / k`. -/
theorem analyzeVideo_total_sampled_of_dvd {Frame : Type} (det : EmotionDetector Frame)
    (path : String) (cap : CapturedVideo Frame) (i k : ℕ)
    (hopen : cap.opened = true) (hfps : cap.fps ≠ 0)
    (hk : 1 ≤ k) (hl : det.emotionLabels ≠ [])
    (hcomplete : cap.frames.length = cap.totalFrames)
    (hdvd : k ∣ cap.totalFrames) :
    ∀ r, analyzeVideoByIntervals det path cap i k = .ok r →
      sumSampled r.intervals = cap.totalFrames / k := by
  intro r hr
  obtain ⟨st, r', hfold, hst, hfc, hr', hri⟩ :=
    analyzeVideo_spec det path cap i k hopen hfps hk hl
  have hrr : r = r' := by
    rw [hr] at hr'
    exact (Except.ok.injEq _ _).mp hr'
  subst hrr
  rcases List.eq_nil_or_concat cap.frames with hnil | ⟨front, f, hconcat⟩
  · -- zero frames: no intervals and a zero frame count
    have hz : cap.totalFrames = 0 := by rw [← hcomplete, hnil]; rfl
    rw [hnil] at hfold
    simp only [List.foldlM_nil] at hfold
    have hstv := (Except.ok.injEq _ _).mp hfold
    rw [hri, ← hstv, hz]
    simp [sumSampled, Nat.zero_div]
  · have hcur0 : st.cur.frames_processed = 0 := by
      refine scanFold_final_close det i ((pyInt (cap.fps * i)).toNat) cap.totalFrames k
        hk hl front f _ st (scanInv_init k i)
        (by rw [← List.concat_eq_append, ← hconcat]; exact hfold) ?_ ?_
      · have h1 : front.length + 1 = cap.frames.length := by
          rw [hconcat]; simp
        simpa [h1, hcomplete] using hdvd
      · have h1 : front.length + 1 = cap.frames.length := by
          rw [hconcat]; simp
        omega
    obtain ⟨_, _, _, _, h5, _, _⟩ := hst
    rw [hri, h5, hcur0, hfc, hcomplete]
    simp

/-- The 11-frame video of the sampling counterexample (2 fps, 5-second
intervals, so `frames_per_interval = 10`). -/
def elevenFrameCap : CapturedVideo ℕ where
  opened := true
  fps := 2
  totalFrames := 11
  frames := [0, 1, 2, 3, 4, 5, 6, 7, 8, 9, 10]

/-- C8 counterexample: on the 11-frame video the total number of frames
sampled across the reported interval records is 0 for `frame_skip = 6` (the
one sampled frame sits in the unfinished trailing interval, which is
discarded) but 1 for `frame_skip = 11` — the total is not monotonically
non-increasing in the frame-skip value. -/
theorem sampled_total_not_monotone_counterexample :
    (6 : ℕ) ≤ 11 ∧
    (analyzeVideoByIntervals noFaceDetector "video.mp4" elevenFrameCap 5 6).toOption.map
      (fun r => sumSampled r.intervals) = some 0 ∧
    (analyzeVideoByIntervals noFaceDetector "video.mp4" elevenFrameCap 5 11).toOption.map
      (fun r => sumSampled r.intervals) = some 1 ∧
    ¬ (1 : ℕ) ≤ 0 := by
  refine ⟨by norm_num, ?_, ?_, by norm_num⟩
  · norm_num [analyzeVideoByIntervals, stepFrame, sampleUpdate, calcIntervalScores,
      freshInterval, pyInt, pyMaxBy, calcOverallSummary, noFaceDetector, elevenFrameCap,
      accumScore, upsertScore, sumSampled, except_bind_ok, except_bind_err]
    exact ⟨_, rfl, rfl⟩
  · norm_num [analyzeVideoByIntervals, stepFrame, sampleUpdate, calcIntervalScores,
      freshInterval, pyInt, pyMaxBy, calcOverallSummary, noFaceDetector, elevenFrameCap,
      accumScore, upsertScore, sumSampled, except_bind_ok, except_bind_err]
    exact ⟨_, rfl, rfl⟩

/-- C8 (amended): for every `frame_skip = k ≥ 1`, every reported interval
record satisfies `frames_sampled = ceil(frames_processed / k)` exactly (each
closed window's `frames_processed` is a multiple of `k`), and so does the
total over all reported intervals.  When the declared frame count is fully
delivered and divided by the frame-skip values, the total sampled is `n / k`,
monotonically non-increasing in `k` among such values; the unrestricted
monotonicity of the original claim fails (see the counterexample) because a
trailing unfinished interval is discarded. -/
theorem frames_sampled_ceil_and_divisor_monotone {Frame : Type}
    (det : EmotionDetector Frame) (path : String) (cap : CapturedVideo Frame)
    (i k k' : ℕ) (hk : 1 ≤ k) (hl : det.emotionLabels ≠ [])
    (hopen : cap.opened = true) (hfps : cap.fps ≠ 0) :
    (∀ r, analyzeVideoByIntervals det path cap i k = .ok r →
      (∀ I ∈ r.intervals,
        I.frames_processed = k * I.frames_sampled ∧
        I.frames_sampled = (I.frames_processed + k - 1) / k) ∧
      sumSampled r.intervals = (sumProcessed r.intervals + k - 1) / k) ∧
    (cap.frames.length = cap.totalFrames → k ≤ k' →
      k ∣ cap.totalFrames → k' ∣ cap.totalFrames →
      ∀ r r', analyzeVideoByIntervals det path cap i k = .ok r →
        analyzeVideoByIntervals det path cap i k' = .ok r' →
        sumSampled r.intervals = cap.totalFrames / k ∧
        sumSampled r'.intervals = cap.totalFrames / k' ∧
        sumSampled r'.intervals ≤ sumSampled r.intervals) := by
  have hceil : ∀ m : ℕ, (k * m + k - 1) / k = m := by
    intro m
    have h1 : k * m + k - 1 = k - 1 + k * m := by omega
    rw [h1, Nat.add_mul_div_left _ _ hk, Nat.div_eq_of_lt (by omega)]
    omega
  constructor
  · intro r hr
    obtain ⟨st, r', hfold, hst, hfc, hr', hri⟩ :=
      analyzeVideo_spec det path cap i k hopen hfps hk hl
    have hrr : r = r' := by
      rw [hr] at hr'
      exact (Except.ok.injEq _ _).mp hr'
    subst hrr
    obtain ⟨_, _, h3, h4, h5, _, h7⟩ := hst
    constructor
    · intro I hI
      rw [hri] at hI
      obtain ⟨hIp, _⟩ := h7 I hI
      exact ⟨hIp, by rw [hIp, hceil]⟩
    · rw [hri, h4, h5]
      rcases h3 with ⟨b, hb⟩
      rw [hb, Nat.mul_div_cancel_left _ hk, hceil]
  · intro hcomplete hkk hdvd hdvd' r r' hr hr'
    have hk' : 1 ≤ k' := le_trans hk hkk
    have h1 := analyzeVideo_total_sampled_of_dvd det path cap i k hopen hfps hk hl
      hcomplete hdvd r hr
    have h2 := analyzeVideo_total_sampled_of_dvd det path cap i k' hopen hfps hk' hl
      hcomplete hdvd' r' hr'
    exact ⟨h1, h2, by rw [h1, h2]; exact Nat.div_le_div_left hkk hk⟩

/-- Witness for the amended sampling claim: the 11-frame video with
`frame_skip = 1` and `frame_skip = 11` (both divide 11). -/
theorem frames_sampled_ceil_and_divisor_monotone_witness :
    (1 : ℕ) ≤ 1 ∧ noFaceDetector.emotionLabels ≠ [] ∧
    elevenFrameCap.opened = true ∧ elevenFrameCap.fps ≠ 0 ∧
    ((∀ r, analyzeVideoByIntervals noFaceDetector "video.mp4" elevenFrameCap 5 1 = .ok r →
      (∀ I ∈ r.intervals,
        I.frames_processed = 1 * I.frames_sampled ∧
        I.frames_sampled = (I.frames_processed + 1 - 1) / 1) ∧
      sumSampled r.intervals = (sumProcessed r.intervals + 1 - 1) / 1) ∧
    (elevenFrameCap.frames.length = elevenFrameCap.totalFrames → 1 ≤ 11 →
      1 ∣ elevenFrameCap.totalFrames → 11 ∣ elevenFrameCap.totalFrames →
      ∀ r r', analyzeVideoByIntervals noFaceDetector "video.mp4" elevenFrameCap 5 1 = .ok r →
        analyzeVideoByIntervals noFaceDetector "video.mp4" elevenFrameCap 5 11 = .ok r' →
        sumSampled r.intervals = elevenFrameCap.totalFrames / 1 ∧
        sumSampled r'.intervals = elevenFrameCap.totalFrames / 11 ∧
        sumSampled r'.intervals ≤ sumSampled r.intervals)) :=
  ⟨le_refl 1, by simp [noFaceDetector], rfl, by norm_num [elevenFrameCap],
    frames_sampled_ceil_and_divisor_monotone noFaceDetector "video.mp4" elevenFrameCap
      5 1 11 (le_refl 1) (by simp [noFaceDetector]) rfl (by norm_num [elevenFrameCap])⟩

/-- A concrete closed window: 3 frames sampled, 1 with a face, one detection
with probability 1 for "happy". -/
def witnessInterval : CurrentInterval where
  interval_number := 0
  start_time := 0
  end_time := 1
  detections := [⟨"happy", [⟨"happy", 1⟩]⟩]
  frames_with_face := 1
  frames_processed := 3
  frames_sampled := 3

theorem interval_scores_formula_witness :
    (["happy"] : List String) ≠ [] ∧ witnessInterval.detections ≠ [] ∧
    ∃ r, calcIntervalScores ["happy"] witnessInterval = .ok r ∧
      r.face_detection_rate =
        roundTo 3 ((witnessInterval.frames_with_face : ℚ) /
          ((max witnessInterval.frames_sampled 1 : ℕ) : ℚ)) ∧
      r.frames_with_face = witnessInterval.frames_with_face ∧
      r.frames_sampled = witnessInterval.frames_sampled ∧
      r.emotion_scores = (["happy"] : List String).map
        (fun l => ⟨l, roundTo 2 (accumScore witnessInterval.detections l /
          (witnessInterval.detections.length : ℚ) *
          ((witnessInterval.frames_with_face : ℚ) /
            ((max witnessInterval.frames_sampled 1 : ℕ) : ℚ)) * 100)⟩) :=
  ⟨by simp, by simp [witnessInterval],
    interval_scores_formula ["happy"] witnessInterval (by simp) (by simp [witnessInterval])⟩

theorem stepFrame_sampled_close_err {Frame : Type} (det : EmotionDetector Frame)
    (i fpi n k : ℕ) (s : LoopState) (f : Frame) (e : String)
    (h1 : (s.frameCount + 1) % k = 0)
    (h2 : s.intervalFrameCount + 1 ≥ fpi ∨ s.frameCount + 1 ≥ n)
    (hr : calcIntervalScores det.emotionLabels (sampleUpdate det s.cur f) = .error e) :
    stepFrame det i fpi n k s f = .error e := by
  simp only [stepFrame, if_neg (not_not_intro h1), if_pos h2, hr]

theorem stepFrame_frameCount {Frame : Type} (det : EmotionDetector Frame)
    (i fpi n k : ℕ) (s s' : LoopState) (f : Frame)
    (h : stepFrame det i fpi n k s f = .ok s') :
    s'.frameCount = s.frameCount + 1 := by
  by_cases hmod : (s.frameCount + 1) % k ≠ 0
  · rw [stepFrame_skip det i fpi n k s f hmod] at h
    rw [← (Except.ok.injEq _ _).mp h]
  · have hmod' : (s.frameCount + 1) % k = 0 := not_not.mp hmod
    by_cases hcl : s.intervalFrameCount + 1 ≥ fpi ∨ s.frameCount + 1 ≥ n
    · cases hcalc : calcIntervalScores det.emotionLabels (sampleUpdate det s.cur f) with
      | error e =>
        rw [stepFrame_sampled_close_err det i fpi n k s f e hmod' hcl hcalc] at h
        exact absurd h (by simp)
      | ok r =>
        rw [stepFrame_sampled_close det i fpi n k s f r hmod' hcl hcalc] at h
        rw [← (Except.ok.injEq _ _).mp h]
    · rw [stepFrame_sampled_noclose det i fpi n k s f hmod' hcl] at h
      rw [← (Except.ok.injEq _ _).mp h]

/-- While the declared total frame count has not been reached, the loop's
behaviour does not depend on its exact value: the `frame_count >=
total_frames` close condition never fires. -/
theorem scanFold_total_independent {Frame : Type} (det : EmotionDetector Frame)
    (i fpi k n n' : ℕ) :
    ∀ (frames : List Frame) (s : LoopState),
      s.frameCount + frames.length < n → s.frameCount + frames.length < n' →
      frames.foldlM (stepFrame det i fpi n k) s =
        frames.foldlM (stepFrame det i fpi n' k) s := by
  intro frames
  induction frames with
  | nil => intro s _ _; rfl
  | cons f rest ih =>
    intro s h1 h2
    have hlen : s.frameCount + 1 < n ∧ s.frameCount + 1 < n' := by
      simp only [List.length_cons] at h1 h2
      omega
    have hstep : stepFrame det i fpi n k s f = stepFrame det i fpi n' k s f := by
      by_cases hmod : (s.frameCount + 1) % k ≠ 0
      · rw [stepFrame_skip det i fpi n k s f hmod, stepFrame_skip det i fpi n' k s f hmod]
      · have hmod' : (s.frameCount + 1) % k = 0 := not_not.mp hmod
        by_cases hfpi : s.intervalFrameCount + 1 ≥ fpi
        · cases hcalc : calcIntervalScores det.emotionLabels (sampleUpdate det s.cur f) with
          | error e =>
            rw [stepFrame_sampled_close_err det i fpi n k s f e hmod' (Or.inl hfpi) hcalc,
              stepFrame_sampled_close_err det i fpi n' k s f e hmod' (Or.inl hfpi) hcalc]
          | ok r =>
            rw [stepFrame_sampled_close det i fpi n k s f r hmod' (Or.inl hfpi) hcalc,
              stepFrame_sampled_close det i fpi n' k s f r hmod' (Or.inl hfpi) hcalc]
        · have hc1 : ¬(s.intervalFrameCount + 1 ≥ fpi ∨ s.frameCount + 1 ≥ n) := by
            push_neg
            exact ⟨lt_of_not_ge hfpi, hlen.1⟩
          have hc2 : ¬(s.intervalFrameCount + 1 ≥ fpi ∨ s.frameCount + 1 ≥ n') := by
            push_neg
            exact ⟨lt_of_not_ge hfpi, hlen.2⟩
          rw [stepFrame_sampled_noclose det i fpi n k s f hmod' hc1,
            stepFrame_sampled_noclose det i fpi n' k s f hmod' hc2]
    rw [List.foldlM_cons, List.foldlM_cons, hstep]
    cases hres : stepFrame det i fpi n' k s f with
    | error e => rfl
    | ok s' =>
      rw [except_bind_ok, except_bind_ok]
      have hfc := stepFrame_frameCount det i fpi n' k s s' f hres
      refine ih s' ?_ ?_
      · simp only [List.length_cons] at h1
        omega
      · simp only [List.length_cons] at h2
        omega

/-- C7 (amended): an unreadable video (failed open) is a fatal error raised
before any frame processing; a frame-read failure mid-stream, however, simply
ends the read loop: the scan returns a successful result carrying the
intervals closed so far, and that partial timeline depends only on the frames
actually delivered, not on the declared total frame count. -/
theorem unreadable_video_fatal_but_truncation_succeeds {Frame : Type}
    (det : EmotionDetector Frame) (path : String) (i k : ℕ) (fps : ℚ)
    (frames : List Frame) (n n' : ℕ)
    (hk : 1 ≤ k) (hl : det.emotionLabels ≠ []) (hfps : fps ≠ 0) :
    (∀ cap : CapturedVideo Frame, cap.opened = false →
      analyzeVideoByIntervals det path cap i k =
        .error ("Could not open video file " ++ path)) ∧
    (frames.length < n →
      ∃ r, analyzeVideoByIntervals det path ⟨true, fps, n, frames⟩ i k = .ok r) ∧
    (frames.length < n → frames.length < n' →
      ∀ r r', analyzeVideoByIntervals det path ⟨true, fps, n, frames⟩ i k = .ok r →
        analyzeVideoByIntervals det path ⟨true, fps, n', frames⟩ i k = .ok r' →
        r.intervals = r'.intervals) := by
  refine ⟨?_, ?_, ?_⟩
  · intro cap hcap
    simp only [analyzeVideoByIntervals, hcap, Bool.not_false, if_true]
  · intro _
    obtain ⟨st, r, _, _, _, hr, _⟩ :=
      analyzeVideo_spec det path ⟨true, fps, n, frames⟩ i k rfl hfps hk hl
    exact ⟨r, hr⟩
  · intro hn hn' r r' hr hr'
    obtain ⟨st, r0, hfold, _, _, hok, hri⟩ :=
      analyzeVideo_spec det path ⟨true, fps, n, frames⟩ i k rfl hfps hk hl
    obtain ⟨st', r0', hfold', _, _, hok', hri'⟩ :=
      analyzeVideo_spec det path ⟨true, fps, n', frames⟩ i k rfl hfps hk hl
    have hrr : r = r0 := by
      rw [hr] at hok
      exact (Except.ok.injEq _ _).mp hok
    have hrr' : r' = r0' := by
      rw [hr'] at hok'
      exact (Except.ok.injEq _ _).mp hok'
    have hsame := scanFold_total_independent det i ((pyInt (fps * i)).toNat) k n n'
      frames { intervalsData := []
               cur := freshInterval 0 i
               frameCount := 0
               intervalFrameCount := 0 } (by simpa using hn) (by simpa using hn')
    have hstst : st = st' := by
      rw [hsame] at hfold
      rw [hfold] at hfold'
      exact (Except.ok.injEq _ _).mp hfold'
    rw [hrr, hrr', hri, hri', hstst]

theorem unreadable_video_fatal_but_truncation_succeeds_witness :
    (1 : ℕ) ≤ 1 ∧ noFaceDetector.emotionLabels ≠ [] ∧ (1 : ℚ) ≠ 0 ∧
    ((∀ cap : CapturedVideo ℕ, cap.opened = false →
      analyzeVideoByIntervals noFaceDetector "video.mp4" cap 5 1 =
        .error ("Could not open video file " ++ "video.mp4")) ∧
    (([0] : List ℕ).length < 10 →
      ∃ r, analyzeVideoByIntervals noFaceDetector "video.mp4" ⟨true, 1, 10, [0]⟩ 5 1 = .ok r) ∧
    (([0] : List ℕ).length < 10 → ([0] : List ℕ).length < 20 →
      ∀ r r', analyzeVideoByIntervals noFaceDetector "video.mp4" ⟨true, 1, 10, [0]⟩ 5 1 = .ok r →
        analyzeVideoByIntervals noFaceDetector "video.mp4" ⟨true, 1, 20, [0]⟩ 5 1 = .ok r' →
        r.intervals = r'.intervals)) :=
  ⟨le_refl 1, by simp [noFaceDetector], by norm_num,
    unreadable_video_fatal_but_truncation_succeeds noFaceDetector "video.mp4" 5 1 1 [0]
      10 20 (le_refl 1) (by simp [noFaceDetector]) (by norm_num)⟩

/-! ### Fusion Orchestrator (`MultimodalAnalysisPipeline.analyze_video`,
`parallel_pipeline.py`)

The two worker processes put one tagged result each on the shared queue:
`("video", …)` from `process_video_emotions` and `("audio_text", …)` from
`process_audio_text`; a worker that catches an exception puts
`(tag, {"error": str(e)})` instead.  The rendezvous is the loop
`for _ in range(2): result_queue.get()` followed by the error checks. -/

/-- One `{word, start, end}` triple of the transcript (`endT` embeds the
Python key `end`, a reserved word in Lean). -/
structure TranscriptWord where
  word : String
  startT : ℚ
  endT : ℚ
deriving DecidableEq, Repr

/-- The transcript dict returned by `Transcriber.transcribe`. -/
structure Transcript where
  text : String
  words : List TranscriptWord
  duration : ℚ
  confidence : ℚ
deriving DecidableEq, Repr

/-- The dict `process_audio_text` puts on the result queue on success. -/
structure AudioTextPayload where
  transcript : Transcript
  audio_emotion : AudioEmotionResult
  text_analysis : TextAnalysisRecord
  text_for_multimodal : Option String
deriving DecidableEq, Repr

/-- A tagged worker result: either the worker's success payload or the
`{"error": str(e)}` dict of its `except` clause. -/
inductive WorkerData where
  | failed (msg : String)
  | video (v : ScanResults)
  | audioText (p : AudioTextPayload)
deriving DecidableEq, Repr

/-- `PrivacyMode.value`. -/
def PrivacyMode.value : PrivacyMode → String
  | .full_privacy => "full_privacy"
  | .anonymized => "anonymized"

/-- The summary dict of `MultimodalAnalysisPipeline._generate_summary`
(`parallel_pipeline.py`). -/
structure ParallelSummary where
  mental_health_score : ℚ
  risk_level : String
  confidence : ℚ
  video_emotion : String
  audio_emotion : String
  text_emotion : String
  depression_level : String
  total_intervals : ℕ
deriving DecidableEq, Repr

/-- First-appearance deduplication, standing for Python's `set(…)` iterated
in the summary's `max(set(video_emotions), key=video_emotions.count)` (CPython
leaves set iteration order unspecified; ties between equally frequent labels
are the nondeterminism the spec itself documents). -/
def dedupKeepFirst (l : List String) : List String :=
  l.foldl (fun acc x => if x ∈ acc then acc else acc ++ [x]) []

/-- `MultimodalAnalysisPipeline._generate_summary` of `parallel_pipeline.py`. -/
def generateSummaryParallel (videoEmotion : ScanResults)
    (audioEmotion : AudioEmotionResult) (textAnalysis : TextAnalysisRecord)
    (llmAssessment : LlmAssessment) : ParallelSummary :=
  let videoEmotions := videoEmotion.intervals.map (fun i => i.dominant_emotion)
  let dominantVideo :=
    (pyMaxBy (fun e => videoEmotions.count e) (dedupKeepFirst videoEmotions)).elim
      "neutral" (fun e => e)
  { mental_health_score := llmAssessment.overall_mental_health_score
    risk_level := llmAssessment.risk_level
    confidence := llmAssessment.confidence
    video_emotion := dominantVideo
    audio_emotion := audioEmotion.emotion
    text_emotion := textAnalysis.emotion.dominant_emotion
    depression_level := textAnalysis.depression.depression_level
    total_intervals := videoEmotion.intervals.length }

/-- The complete result dataclass `MultimodalAnalysisResult`. -/
structure MultimodalAnalysisResult where
  video_path : String
  video_emotion : ScanResults
  transcript : Transcript
  audio_emotion : AudioEmotionResult
  text_analysis : TextAnalysisRecord
  privacy_mode : String
  llm_final_assessment : LlmAssessment
  summary : ParallelSummary
deriving DecidableEq, Repr

/-- The `results` dict that the rendezvous loop builds: sequential
`results[result_type] = data` assignments, so a repeated tag keeps the last
value. -/
def lookupLastTag (pairs : List (String × WorkerData)) (tag : String) :
    Option WorkerData :=
  (pairs.filter (fun p => p.1 = tag)).getLast?.map (fun p => p.2)

/-- The body of `MultimodalAnalysisPipeline.analyze_video` after the two
worker processes are started: consume exactly two tagged results from the
queue, fail the whole run if either carries an error (the video check comes
first), otherwise run the Final Scorer (its external LLM call and JSON parse
outcomes are the `llmCall`/`jsonLoads` parameters) and build the summary and
result record.  A tag missing from the first two results would be Python's
`KeyError` on the `results[...]` subscripts. -/
def analyzeVideoJoin (videoPath : String) (mode : PrivacyMode)
    (llmCall : Except String String) (jsonLoads : String → Option LlmAssessment)
    (queue : List (String × WorkerData)) : Except String MultimodalAnalysisResult :=
  let received := queue.take 2
  let videoRes := lookupLastTag received "video"
  let audioRes := lookupLastTag received "audio_text"
  match videoRes with
  | some (.failed e) => .error ("Video processing failed: " ++ e)
  | _ =>
    match audioRes with
    | some (.failed e) => .error ("Audio/text processing failed: " ++ e)
    | _ =>
      match videoRes, audioRes with
      | some (.video v), some (.audioText p) =>
        let assessment := getLlmAssessment llmCall jsonLoads
        let summary := generateSummaryParallel v p.audio_emotion p.text_analysis assessment
        .ok { video_path := videoPath
              video_emotion := v
              transcript := p.transcript
              audio_emotion := p.audio_emotion
              text_analysis := p.text_analysis
              privacy_mode := mode.value
              llm_final_assessment := assessment
              summary := summary }
      | none, _ => .error "KeyError: video"
      | _, none => .error "KeyError: audio_text"
      | _, _ => .error "TypeError: unexpected worker payload"

/-- C6: When either worker's tagged result at the rendezvous carries an
error, the orchestrator raises an error naming the failing side (the video
check runs first) and no assessment record is produced; and the rendezvous
consumes exactly the first two tagged results — anything beyond them cannot
influence the outcome. -/
theorem worker_failure_aborts_run (videoPath : String) (mode : PrivacyMode)
    (llmCall : Except String String) (jsonLoads : String → Option LlmAssessment)
    (vdata adata : WorkerData) (rest queue : List (String × WorkerData))
    (hq : queue = ("video", vdata) :: ("audio_text", adata) :: rest ∨
          queue = ("audio_text", adata) :: ("video", vdata) :: rest) :
    (∀ e, vdata = .failed e →
      analyzeVideoJoin videoPath mode llmCall jsonLoads queue =
        .error ("Video processing failed: " ++ e)) ∧
    ((∀ m, vdata ≠ .failed m) → ∀ e, adata = .failed e →
      analyzeVideoJoin videoPath mode llmCall jsonLoads queue =
        .error ("Audio/text processing failed: " ++ e)) ∧
    (∀ (a b : String × WorkerData) (rest' : List (String × WorkerData)),
      analyzeVideoJoin videoPath mode llmCall jsonLoads (a :: b :: rest') =
        analyzeVideoJoin videoPath mode llmCall jsonLoads [a, b]) := by
  refine ⟨?_, ?_, ?_⟩
  · intro e he
    subst he
    rcases hq with hq | hq
    · subst hq
      simp [analyzeVideoJoin, lookupLastTag]
    · subst hq
      simp [analyzeVideoJoin, lookupLastTag]
  · intro hv e he
    subst he
    rcases hq with hq | hq
    · subst hq
      cases vdata with
      | failed m => exact absurd rfl (hv m)
      | video v => simp [analyzeVideoJoin, lookupLastTag]
      | audioText p => simp [analyzeVideoJoin, lookupLastTag]
    · subst hq
      cases vdata with
      | failed m => exact absurd rfl (hv m)
      | video v => simp [analyzeVideoJoin, lookupLastTag]
      | audioText p => simp [analyzeVideoJoin, lookupLastTag]
  · intro a b rest'
    simp [analyzeVideoJoin]

/-- A concrete success payload for the audio/text worker. -/
def mockAudioTextPayload : AudioTextPayload where
  transcript := { text := "hello", words := [⟨"hello", 0, 1⟩], duration := 1, confidence := 9/10 }
  audio_emotion := sadTextNeutralAudio
  text_analysis :=
    { emotion := { dominant_emotion := "joy", confidence := 1, all_emotions := [⟨"joy", 1⟩] }
      depression :=
        { depression_level := "not depression", confidence := 1, severity := 0
          all_scores := [⟨"not depression", 1⟩] }
      llm_analysis := none
      anonymized_text := none }
  text_for_multimodal := none

theorem worker_failure_aborts_run_witness :
    ([("video", WorkerData.failed "cv2 crash"),
      ("audio_text", WorkerData.audioText mockAudioTextPayload)] :
        List (String × WorkerData)) =
      ("video", WorkerData.failed "cv2 crash") ::
        ("audio_text", WorkerData.audioText mockAudioTextPayload) :: [] ∧
    WorkerData.failed "cv2 crash" = WorkerData.failed "cv2 crash" ∧
    analyzeVideoJoin "video.mp4" PrivacyMode.anonymized (.error "offline")
      (fun _ => none)
      [("video", WorkerData.failed "cv2 crash"),
       ("audio_text", WorkerData.audioText mockAudioTextPayload)] =
      .error ("Video processing failed: " ++ "cv2 crash") :=
  ⟨rfl, rfl,
    (worker_failure_aborts_run "video.mp4" PrivacyMode.anonymized (.error "offline")
      (fun _ => none) (WorkerData.failed "cv2 crash")
      (WorkerData.audioText mockAudioTextPayload) [] _ (Or.inl rfl)).1 "cv2 crash" rfl⟩

/-! ### Chunked Text Analyzer (`text_chunking_analyzer.py`)

`chunk_text_by_sentences` splits on `re.split(r'(?<=[.!?])\s+|\n+', text)`
and packs sentences into chunks under a token budget, falling back to
word-level packing for oversized sentences.  The two tokenizers (as
`encode(text, add_special_tokens)` functions) and the two classifiers are
external models and are fields of the analyzer structure. -/

/-- Python's `\s` / `str.split()` whitespace over the ASCII range. -/
def pySpace (c : Char) : Bool :=
  c = ' ' || c = '\t' || c = '\n' || c = '\r' || c = '\x0b' || c = '\x0c'

def isSentencePunct (c : Char) : Bool :=
  c = '.' || c = '!' || c = '?'

/-- Scanner state for `re.split(r'(?<=[.!?])\s+|\n+', …)`: outside any
separator, inside a `\s+` run matched after sentence punctuation, or inside a
`\n+` run. -/
inductive SepState where
  | noSep
  | spaceRun
  | nlRun

/-- One-character-at-a-time scanner implementing the sentence-splitting
regex: at each position the first alternative (`(?<=[.!?])\s+`, a maximal
whitespace run after sentence punctuation) is preferred, else a maximal `\n+`
run; pieces between matches are the sentences (possibly empty). -/
def sentenceSplitAux : SepState → Option Char → List Char → List Char → List (List Char)
  | _, _, [], piece => [piece.reverse]
  | .spaceRun, _, c :: rest, piece =>
    if pySpace c then sentenceSplitAux .spaceRun (some c) rest piece
    else sentenceSplitAux .noSep (some c) rest (c :: piece)
  | .nlRun, _, c :: rest, piece =>
    if c = '\n' then sentenceSplitAux .nlRun (some c) rest piece
    else sentenceSplitAux .noSep (some c) rest (c :: piece)
  | .noSep, prev, c :: rest, piece =>
    if (match prev with | some p => isSentencePunct p | none => false) && pySpace c then
      piece.reverse :: sentenceSplitAux .spaceRun (some c) rest []
    else if c = '\n' then
      piece.reverse :: sentenceSplitAux .nlRun (some c) rest []
    else
      sentenceSplitAux .noSep (some c) rest (c :: piece)

/-- `re.split(r'(?<=[.!?])\s+|\n+', text)`. -/
def pySentenceSplit (text : String) : List String :=
  (sentenceSplitAux .noSep none text.data []).map (fun p => String.mk p)

/-- `str.split()`: maximal non-whitespace runs, empties discarded. -/
def pyWordsAux : List Char → List Char → List (List Char)
  | [], w => if w.isEmpty then [] else [w.reverse]
  | c :: rest, w =>
    if pySpace c then
      if w.isEmpty then pyWordsAux rest [] else w.reverse :: pyWordsAux rest []
    else pyWordsAux rest (c :: w)

def pyWords (s : String) : List String :=
  (pyWordsAux s.data []).map (fun p => String.mk p)

/-- State of the chunk-packing loop: chunks emitted so far, the sentences of
the open chunk, and its token count. -/
structure ChunkAccum where
  chunks : List String
  currentChunk : List String
  currentTokens : ℕ

/-- The word-level fallback loop for a single oversized sentence. -/
def packWords (encode : String → List ℕ) (maxTokens : ℕ)
    (chunks : List String) (words : List String) : List String :=
  let final := words.foldl
    (fun (st : List String × List String × ℕ) word =>
      let wc := (encode word).length
      if st.2.2 + wc > maxTokens then
        (if st.2.1 ≠ [] then st.1 ++ [" ".intercalate st.2.1] else st.1, [word], wc)
      else
        (st.1, st.2.1 ++ [word], st.2.2 + wc))
    (chunks, [], 0)
  if final.2.1 ≠ [] then final.1 ++ [" ".intercalate final.2.1] else final.1

/-- One iteration of the sentence-packing loop of `chunk_text_by_sentences`. -/
def packSentence (encode : String → List ℕ) (maxTokens : ℕ)
    (st : ChunkAccum) (sentence : String) : ChunkAccum :=
  let n := (encode sentence).length
  if n > maxTokens then
    let chunks1 :=
      if st.currentChunk ≠ [] then st.chunks ++ [" ".intercalate st.currentChunk]
      else st.chunks
    { chunks := packWords encode maxTokens chunks1 (pyWords sentence)
      currentChunk := []
      currentTokens := 0 }
  else if st.currentTokens + n > maxTokens then
    { chunks :=
        if st.currentChunk ≠ [] then st.chunks ++ [" ".intercalate st.currentChunk]
        else st.chunks
      currentChunk := [sentence]
      currentTokens := n }
  else
    { st with
      currentChunk := st.currentChunk ++ [sentence]
      currentTokens := st.currentTokens + n }

/-- `ChunkedTextAnalyzer.chunk_text_by_sentences` (with `encode` standing for
`tokenizer.encode(·, add_special_tokens=False)`). -/
def chunkTextBySentences (text : String) (maxTokens : ℕ)
    (encode : String → List ℕ) : List String :=
  let sentences := pySentenceSplit text
  let final := sentences.foldl (packSentence encode maxTokens)
    { chunks := [], currentChunk := [], currentTokens := 0 }
  if final.currentChunk ≠ [] then final.chunks ++ [" ".intercalate final.currentChunk]
  else final.chunks

/-- Python `for`-loop over a list whose body can raise. -/
def exceptMapList {α β : Type} (f : α → Except String β) : List α → Except String (List β)
  | [] => .ok []
  | x :: xs =>
    match f x with
    | .error e => .error e
    | .ok y =>
      match exceptMapList f xs with
      | .error e => .error e
      | .ok ys => .ok (y :: ys)

/-- Python accumulating `for`-loop whose body can raise. -/
def exceptFoldList {σ α : Type} (f : σ → α → Except String σ) : σ → List α → Except String σ
  | s, [] => .ok s
  | s, x :: xs =>
    match f s x with
    | .error e => .error e
    | .ok s' => exceptFoldList f s' xs

/-- Python dict subscript `d[key]` on a score dict built from a classifier
result list (last occurrence of a key wins, missing key raises `KeyError`). -/
def pyDictGet (entries : List ScoreEntry) (key : String) : Except String ℚ :=
  match (entries.filter (fun e => e.label = key)).getLast? with
  | some e => .ok e.score
  | none => .error ("KeyError: " ++ key)

/-- Total version of `pyDictGet` (defaulting to 0), used to state what the
aggregation computes when every lookup succeeds. -/
def pyDictGetD (entries : List ScoreEntry) (key : String) : ℚ :=
  ((entries.filter (fun e => e.label = key)).getLast?).elim 0 (fun e => e.score)

/-- The `ChunkedTextAnalyzer` with its four external models. -/
structure ChunkedTextAnalyzer where
  emotionEncode : Bool → String → List ℕ
  depressionEncode : Bool → String → List ℕ
  emotionClassify : String → List ScoreEntry
  depressionClassify : String → List ScoreEntry

/-- `self.emotion_max_tokens = 480` / `self.depression_max_tokens = 480`. -/
def chunkMaxTokens : ℕ := 480

/-- Return dict of `analyze_emotion_chunked` (the `chunk_distributions` /
`chunk_details` metadata lists are not modeled as record fields — no claim
reads them — but their per-chunk dominant-label computations are retained in
the function body because they can raise). -/
structure ChunkedEmotionResult where
  dominant_emotion : String
  confidence : ℚ
  all_emotions : List ScoreEntry
  chunks_analyzed : ℕ
  total_tokens : ℕ
  chunking_applied : Bool
deriving DecidableEq, Repr

/-- Return dict of `analyze_depression_chunked` (same remark about the
metadata lists; `aggregation_method` is present only in the chunked branch). -/
structure ChunkedDepressionResult where
  depression_level : String
  confidence : ℚ
  severity : ℕ
  all_scores : List ScoreEntry
  chunks_analyzed : ℕ
  total_tokens : ℕ
  chunking_applied : Bool
  aggregation_method : Option String
deriving DecidableEq, Repr

/-- The length weights `[len(chunk)/total_length for chunk in chunks]`. -/
def chunkWeights (chunks : List String) : List ℚ :=
  chunks.map (fun c => (c.length : ℚ) / ((chunks.map (fun c' => c'.length)).sum : ℚ))

/-- The weighted aggregation loop common to both analyzers: for each label of
the first chunk's score dict, `sum(chunk_result[label] * weight for …)`. -/
def aggregateWeighted (chunkResults : List (List ScoreEntry)) (weights : List ℚ)
    (labels : List String) : Except String (List ScoreEntry) :=
  exceptMapList
    (fun l =>
      match exceptMapList (fun cr => pyDictGet cr l) chunkResults with
      | .error e => .error e
      | .ok vals => .ok (⟨l, ((vals.zip weights).map (fun p => p.1 * p.2)).sum⟩ : ScoreEntry))
    labels

/-- `ChunkedTextAnalyzer.analyze_emotion_chunked`. -/
def analyzeEmotionChunked (ta : ChunkedTextAnalyzer) (text : String) :
    Except String ChunkedEmotionResult :=
  let total := (ta.emotionEncode true text).length
  if total ≤ chunkMaxTokens then
    match pyMaxBy (fun e : ScoreEntry => e.score) (ta.emotionClassify text) with
    | none => .error "ValueError: max() arg is an empty sequence"
    | some dominant =>
      .ok { dominant_emotion := dominant.label
            confidence := dominant.score
            all_emotions := ta.emotionClassify text
            chunks_analyzed := 1
            total_tokens := total
            chunking_applied := false }
  else
    let chunks := chunkTextBySentences text chunkMaxTokens (ta.emotionEncode false)
    let chunkResults := chunks.map ta.emotionClassify
    -- `chunk_distributions` loop: each chunk's dominant label (can raise)
    match exceptMapList
        (fun scores =>
          match pyMaxBy (fun e : ScoreEntry => e.score) scores with
          | none => .error "ValueError: max() arg is an empty sequence"
          | some dom => .ok dom.label)
        chunkResults with
    | .error e => .error e
    | .ok _ =>
      if chunks ≠ [] ∧ (chunks.map (fun c => c.length)).sum = 0 then
        .error "ZeroDivisionError: division by zero"
      else
        match chunkResults with
        | [] => .error "IndexError: list index out of range"
        | first :: _ =>
          match aggregateWeighted chunkResults (chunkWeights chunks)
              (dedupKeepFirst (first.map (fun e => e.label))) with
          | .error e => .error e
          | .ok aggregated =>
            match pyMaxBy (fun e : ScoreEntry => e.score) aggregated with
            | none => .error "ValueError: max() arg is an empty sequence"
            | some dominant =>
              .ok { dominant_emotion := dominant.label
                    confidence := dominant.score
                    all_emotions := aggregated
                    chunks_analyzed := chunks.length
                    total_tokens := total
                    chunking_applied := true }

/-- One step of the worst-case severity selection of
`analyze_depression_chunked`: recompute the chunk's dominant label, map it
through `severity_map`, and keep the strictly highest severity seen with its
chunk's distribution. -/
def worstCaseStep (acc : ℕ × Option (List ScoreEntry)) (scores : List ScoreEntry) :
    Except String (ℕ × Option (List ScoreEntry)) :=
  match pyMaxBy (fun e : ScoreEntry => e.score) scores with
  | none => .error "ValueError: max() arg is an empty sequence"
  | some dom =>
    let severity := severityMapGet dom.label
    .ok (if severity > acc.1 then (severity, some scores) else acc)

/-- `ChunkedTextAnalyzer.analyze_depression_chunked`. -/
def analyzeDepressionChunked (ta : ChunkedTextAnalyzer) (text : String) :
    Except String ChunkedDepressionResult :=
  let total := (ta.depressionEncode true text).length
  if total ≤ chunkMaxTokens then
    match pyMaxBy (fun e : ScoreEntry => e.score) (ta.depressionClassify text) with
    | none => .error "ValueError: max() arg is an empty sequence"
    | some dominant =>
      .ok { depression_level := dominant.label
            confidence := dominant.score
            severity := severityMapGet dominant.label
            all_scores := ta.depressionClassify text
            chunks_analyzed := 1
            total_tokens := total
            chunking_applied := false
            aggregation_method := none }
  else
    let chunks := chunkTextBySentences text chunkMaxTokens (ta.depressionEncode false)
    let chunkResults := chunks.map ta.depressionClassify
    -- `chunk_distributions` loop: each chunk's dominant label (can raise)
    match exceptMapList
        (fun scores =>
          match pyMaxBy (fun e : ScoreEntry => e.score) scores with
          | none => .error "ValueError: max() arg is an empty sequence"
          | some dom => .ok dom.label)
        chunkResults with
    | .error e => .error e
    | .ok _ =>
      match exceptFoldList worstCaseStep (0, none) chunkResults with
      | .error e => .error e
      | .ok worst =>
        if chunks ≠ [] ∧ (chunks.map (fun c => c.length)).sum = 0 then
          .error "ZeroDivisionError: division by zero"
        else
          match chunkResults with
          | [] => .error "IndexError: list index out of range"
          | first :: _ =>
            match aggregateWeighted chunkResults (chunkWeights chunks)
                (dedupKeepFirst (first.map (fun e => e.label))) with
            | .error e => .error e
            | .ok aggregated =>
              let dominantLabel := reverseSeverityMap worst.1
              match worst.2 with
              | none => .error "TypeError: 'NoneType' object is not subscriptable"
              | some maxScores =>
                match pyDictGet maxScores dominantLabel with
                | .error e => .error e
                | .ok dominantConfidence =>
                  .ok { depression_level := dominantLabel
                        confidence := dominantConfidence
                        severity := worst.1
                        all_scores := aggregated
                        chunks_analyzed := chunks.length
                        total_tokens := total
                        chunking_applied := true
                        aggregation_method := some "worst-case (most conservative)" }

theorem exceptMapList_ok_of {α β : Type} (f : α → Except String β) (g : α → β)
    (xs : List α) (h : ∀ x ∈ xs, f x = .ok (g x)) :
    exceptMapList f xs = .ok (xs.map g) := by
  induction xs with
  | nil => rfl
  | cons x rest ih =>
    have hx := h x (by simp)
    have hrest := ih (fun y hy => h y (List.mem_cons_of_mem x hy))
    simp only [exceptMapList, hx, hrest, List.map_cons]

theorem exceptMapList_cons_inv {α β : Type} (f : α → Except String β)
    (x : α) (xs : List α) (ys : List β)
    (h : exceptMapList f (x :: xs) = .ok ys) :
    ∃ y ys', ys = y :: ys' ∧ f x = .ok y ∧ exceptMapList f xs = .ok ys' := by
  simp only [exceptMapList] at h
  cases hx : f x with
  | error e => rw [hx] at h; exact absurd h (by simp)
  | ok y =>
    rw [hx] at h
    cases hxs : exceptMapList f xs with
    | error e => rw [hxs] at h; exact absurd h (by simp)
    | ok ys' =>
      rw [hxs] at h
      exact ⟨y, ys', ((Except.ok.injEq _ _).mp h).symm, rfl, rfl⟩

theorem mem_of_mem_dedupKeepFirst (L : List String) (x : String)
    (h : x ∈ dedupKeepFirst L) : x ∈ L := by
  have key : ∀ (l : List String) (acc : List String),
      x ∈ l.foldl (fun acc y => if y ∈ acc then acc else acc ++ [y]) acc →
      x ∈ acc ∨ x ∈ l := by
    intro l
    induction l with
    | nil => intro acc hx; exact Or.inl hx
    | cons y rest ih =>
      intro acc hx
      rcases ih _ hx with hx' | hx'
      · simp only [] at hx'
        by_cases hy : y ∈ acc
        · rw [if_pos hy] at hx'
          exact Or.inl hx'
        · rw [if_neg hy] at hx'
          rcases List.mem_append.mp hx' with hx'' | hx''
          · exact Or.inl hx''
          · exact Or.inr (by simp [List.mem_singleton.mp hx''])
      · exact Or.inr (List.mem_cons_of_mem y hx')
  rcases key L [] h with hx | hx
  · exact absurd hx (List.not_mem_nil x)
  · exact hx

theorem dedupKeepFirst_ne_nil (L : List String) (h : L ≠ []) :
    dedupKeepFirst L ≠ [] := by
  have key : ∀ (l : List String) (acc : List String), acc ≠ [] →
      l.foldl (fun acc y => if y ∈ acc then acc else acc ++ [y]) acc ≠ [] := by
    intro l
    induction l with
    | nil => intro acc h; exact h
    | cons y rest ih =>
      intro acc hacc
      simp only [List.foldl_cons]
      by_cases hy : y ∈ acc
      · rw [if_pos hy]; exact ih acc hacc
      · rw [if_neg hy]; exact ih _ (by simp)
  cases L with
  | nil => exact absurd rfl h
  | cons y rest =>
    simp only [dedupKeepFirst, List.foldl_cons]
    have : (y ∈ ([] : List String)) = False := by simp
    rw [if_neg (by simp)]
    exact key rest [y] (by simp)

theorem pyDictGet_ok_of_mem (entries : List ScoreEntry) (key : String)
    (h : key ∈ entries.map (fun e => e.label)) :
    pyDictGet entries key = .ok (pyDictGetD entries key) := by
  obtain ⟨e, he, hl⟩ := List.mem_map.mp h
  have hmem : e ∈ entries.filter (fun e => e.label = key) :=
    List.mem_filter.mpr ⟨he, by simp [hl]⟩
  have hne : entries.filter (fun e => e.label = key) ≠ [] :=
    List.ne_nil_of_mem hmem
  cases hlast : (entries.filter (fun e => e.label = key)).getLast? with
  | none => exact absurd (List.getLast?_eq_none_iff.mp hlast) hne
  | some le => simp only [pyDictGet, pyDictGetD, hlast, Option.elim]

theorem aggregateWeighted_ok (chunkResults : List (List ScoreEntry))
    (weights : List ℚ) (L : List String)
    (hlab : ∀ cr ∈ chunkResults, cr.map (fun e => e.label) = L) :
    aggregateWeighted chunkResults weights (dedupKeepFirst L) =
      .ok ((dedupKeepFirst L).map
        (fun l => ⟨l, ((chunkResults.map (fun cr => pyDictGetD cr l)).zip weights).map
          (fun p => p.1 * p.2) |>.sum⟩)) := by
  refine exceptMapList_ok_of _ _ _ (fun l hl => ?_)
  have hmemL : l ∈ L := mem_of_mem_dedupKeepFirst L l hl
  have hvals : exceptMapList (fun cr => pyDictGet cr l) chunkResults =
      .ok (chunkResults.map (fun cr => pyDictGetD cr l)) := by
    refine exceptMapList_ok_of _ _ _ (fun cr hcr => ?_)
    exact pyDictGet_ok_of_mem cr l (by rw [hlab cr hcr]; exact hmemL)
  simp only [aggregateWeighted, hvals]

theorem pyMaxBy_mem {α β : Type} [LinearOrder β] (f : α → β) (l : List α) (y : α)
    (h : pyMaxBy f l = some y) : y ∈ l := by
  induction l generalizing y with
  | nil => exact absurd h (by simp [pyMaxBy])
  | cons x xs ih =>
    cases hm : pyMaxBy f xs with
    | none =>
      simp only [pyMaxBy, hm] at h
      have hx : x = y := (Option.some.injEq _ _).mp h
      exact hx ▸ List.mem_cons_self x xs
    | some z =>
      simp only [pyMaxBy, hm] at h
      by_cases hc : f z > f x
      · rw [if_pos hc] at h
        have hz : z = y := (Option.some.injEq _ _).mp h
        exact List.mem_cons_of_mem x (hz ▸ ih z hm)
      · rw [if_neg hc] at h
        have hx : x = y := (Option.some.injEq _ _).mp h
        exact hx ▸ List.mem_cons_self x xs

/-- The dominant-label pass of the `chunk_distributions` loops. -/
def chunkDominantLabel (scores : List ScoreEntry) : Except String String :=
  match pyMaxBy (fun e : ScoreEntry => e.score) scores with
  | none => .error "ValueError: max() arg is an empty sequence"
  | some dom => .ok dom.label

theorem worstCaseFold_ok_max (chunkResults : List (List ScoreEntry)) (ds : List String)
    (hds : exceptMapList chunkDominantLabel chunkResults = .ok ds) :
    ∀ acc, ∃ w, exceptFoldList worstCaseStep acc chunkResults = .ok w ∧
      w.1 = (ds.map severityMapGet).foldl max acc.1 := by
  induction chunkResults generalizing ds with
  | nil =>
    intro acc
    simp only [exceptMapList] at hds
    rw [← (Except.ok.injEq _ _).mp hds]
    exact ⟨acc, rfl, rfl⟩
  | cons c cs ih =>
    intro acc
    obtain ⟨d, ds', hdseq, hd, hds'⟩ := exceptMapList_cons_inv _ c cs ds hds
    subst hdseq
    simp only [chunkDominantLabel] at hd
    cases hm : pyMaxBy (fun e : ScoreEntry => e.score) c with
    | none => rw [hm] at hd; exact absurd hd (by simp)
    | some dom =>
      rw [hm] at hd
      have hdl : dom.label = d := (Except.ok.injEq _ _).mp hd
      obtain ⟨w, hw, hw1⟩ := ih ds' hds'
        (if severityMapGet dom.label > acc.1 then (severityMapGet dom.label, some c) else acc)
      refine ⟨w, ?_, ?_⟩
      · simp only [exceptFoldList, worstCaseStep, hm]
        exact hw
      · rw [hw1, List.map_cons, List.foldl_cons, hdl]
        by_cases hgt : severityMapGet d > acc.1
        · rw [if_pos hgt]
          congr 1
          show severityMapGet d = acc.1 ⊔ severityMapGet d
          omega
        · rw [if_neg hgt]
          congr 1
          show acc.1 = acc.1 ⊔ severityMapGet d
          omega

theorem worstCaseFold_mem (chunkResults : List (List ScoreEntry)) :
    ∀ acc w, exceptFoldList worstCaseStep acc chunkResults = .ok w →
      w = acc ∨ ∃ scores, w.2 = some scores ∧ scores ∈ chunkResults ∧
        ∃ dom, pyMaxBy (fun e : ScoreEntry => e.score) scores = some dom ∧
          severityMapGet dom.label = w.1 := by
  induction chunkResults with
  | nil =>
    intro acc w h
    simp only [exceptFoldList] at h
    exact Or.inl ((Except.ok.injEq _ _).mp h).symm
  | cons c cs ih =>
    intro acc w h
    simp only [exceptFoldList, worstCaseStep] at h
    cases hm : pyMaxBy (fun e : ScoreEntry => e.score) c with
    | none => rw [hm] at h; exact absurd h (by simp)
    | some dom =>
      rw [hm] at h
      rcases ih _ w h with hw | ⟨scores, h2, hmem, hdom⟩
      · by_cases hgt : severityMapGet dom.label > acc.1
        · rw [if_pos hgt] at hw
          exact Or.inr ⟨c, by rw [hw], by simp, dom, hm, by rw [hw]⟩
        · rw [if_neg hgt] at hw
          exact Or.inl hw
      · exact Or.inr ⟨scores, h2, List.mem_cons_of_mem c hmem, hdom⟩

theorem worstCaseFold_all_zero (chunkResults : List (List ScoreEntry))
    (h0 : ∀ c ∈ chunkResults, ∀ dom,
      pyMaxBy (fun e : ScoreEntry => e.score) c = some dom →
      severityMapGet dom.label = 0) :
    ∀ w, exceptFoldList worstCaseStep (0, none) chunkResults = .ok w →
      w = (0, none) := by
  induction chunkResults with
  | nil =>
    intro w h
    simp only [exceptFoldList] at h
    exact ((Except.ok.injEq _ _).mp h).symm
  | cons c cs ih =>
    intro w h
    simp only [exceptFoldList, worstCaseStep] at h
    cases hm : pyMaxBy (fun e : ScoreEntry => e.score) c with
    | none => rw [hm] at h; exact absurd h (by simp)
    | some dom =>
      have hz := h0 c (by simp) dom hm
      rw [hm] at h
      simp only [hz, gt_iff_lt, lt_self_iff_false, if_false] at h
      exact ih (fun c' hc' => h0 c' (List.mem_cons_of_mem c hc')) w h

theorem severityMapGet_pos_inv (l : String) (h : 0 < severityMapGet l) :
    reverseSeverityMap (severityMapGet l) = l := by
  unfold severityMapGet at h ⊢
  unfold reverseSeverityMap
  split_ifs at h ⊢ with h1 h2 h3 <;> simp_all

theorem exceptMapList_error_inv {α β : Type} (f : α → Except String β)
    (xs : List α) (e : String) (h : exceptMapList f xs = .error e) :
    ∃ x ∈ xs, f x = .error e := by
  induction xs with
  | nil => exact absurd h (by simp [exceptMapList])
  | cons x rest ih =>
    simp only [exceptMapList] at h
    cases hx : f x with
    | error e' =>
      rw [hx] at h
      have he : e' = e := (Except.error.injEq _ _).mp h
      exact ⟨x, by simp, by rw [hx, he]⟩
    | ok y =>
      rw [hx] at h
      cases hrest : exceptMapList f rest with
      | error e' =>
        rw [hrest] at h
        have he : e' = e := (Except.error.injEq _ _).mp h
        obtain ⟨z, hz, hfz⟩ := ih (he ▸ hrest)
        exact ⟨z, List.mem_cons_of_mem x hz, hfz⟩
      | ok ys => rw [hrest] at h; exact absurd h (by simp)

/-- C10: If chunking is applied (token count above the 480-token budget) and
every chunk's dominant depression label is `"not depression"` (mapped
severity 0), `analyze_depression_chunked` never returns an aggregated
record: the `max_severity_scores` variable stays `None` through the
worst-case fold (severity 0 is never strictly greater than the initial 0),
so the confidence lookup `max_severity_scores[dominant_label]` raises
`TypeError: 'NoneType' object is not subscriptable`. -/
theorem all_not_depression_chunks_raise (ta : ChunkedTextAnalyzer) (text : String)
    (L : List String)
    (htok : chunkMaxTokens < (ta.depressionEncode true text).length)
    (hchunks : chunkTextBySentences text chunkMaxTokens (ta.depressionEncode false) ≠ [])
    (hlen : ((chunkTextBySentences text chunkMaxTokens (ta.depressionEncode false)).map
      (fun c => c.length)).sum ≠ 0)
    (hLne : L ≠ [])
    (hlab : ∀ c ∈ chunkTextBySentences text chunkMaxTokens (ta.depressionEncode false),
      (ta.depressionClassify c).map (fun e => e.label) = L)
    (hall : ∀ c ∈ chunkTextBySentences text chunkMaxTokens (ta.depressionEncode false),
      ∀ dom, pyMaxBy (fun e : ScoreEntry => e.score) (ta.depressionClassify c) = some dom →
        dom.label = "not depression") :
    analyzeDepressionChunked ta text =
      .error "TypeError: 'NoneType' object is not subscriptable" := by
  have hne : ∀ c ∈ chunkTextBySentences text chunkMaxTokens (ta.depressionEncode false),
      ta.depressionClassify c ≠ [] := by
    intro c hc hnil
    have hl := hlab c hc
    rw [hnil] at hl
    exact hLne hl.symm
  have hlab' : ∀ cr ∈ (chunkTextBySentences text chunkMaxTokens
        (ta.depressionEncode false)).map ta.depressionClassify,
      cr.map (fun e => e.label) = L := by
    intro cr hcr
    obtain ⟨c, hc, rfl⟩ := List.mem_map.mp hcr
    exact hlab c hc
  have hds : exceptMapList chunkDominantLabel
      ((chunkTextBySentences text chunkMaxTokens
        (ta.depressionEncode false)).map ta.depressionClassify) =
      .ok (((chunkTextBySentences text chunkMaxTokens
        (ta.depressionEncode false)).map ta.depressionClassify).map
          (fun _ => "not depression")) := by
    refine exceptMapList_ok_of _ _ _ (fun scores hs => ?_)
    obtain ⟨c, hc, rfl⟩ := List.mem_map.mp hs
    obtain ⟨dom, hdom⟩ := Option.isSome_iff_exists.mp
      (pyMaxBy_isSome (fun e : ScoreEntry => e.score) _ (hne c hc))
    simp only [chunkDominantLabel, hdom]
    exact congrArg Except.ok (hall c hc dom hdom)
  obtain ⟨w0, hfold0, _⟩ := worstCaseFold_ok_max
    ((chunkTextBySentences text chunkMaxTokens
      (ta.depressionEncode false)).map ta.depressionClassify) _ hds (0, none)
  have h0 : ∀ c ∈ (chunkTextBySentences text chunkMaxTokens
        (ta.depressionEncode false)).map ta.depressionClassify, ∀ dom,
      pyMaxBy (fun e : ScoreEntry => e.score) c = some dom →
      severityMapGet dom.label = 0 := by
    intro c hc dom hdom
    obtain ⟨ch, hch, hceq⟩ := List.mem_map.mp hc
    have hd := hall ch hch dom (by rw [hceq]; exact hdom)
    rw [hd]
    rfl
  have haggok := aggregateWeighted_ok
    ((chunkTextBySentences text chunkMaxTokens
      (ta.depressionEncode false)).map ta.depressionClassify)
    (chunkWeights (chunkTextBySentences text chunkMaxTokens (ta.depressionEncode false)))
    L hlab'
  simp only [analyzeDepressionChunked]
  rw [if_neg (Nat.not_le.mpr htok)]
  split
  · next e heq =>
    obtain ⟨scores, hs, hferr⟩ := exceptMapList_error_inv _ _ _ heq
    obtain ⟨c, hc, rfl⟩ := List.mem_map.mp hs
    obtain ⟨dom, hdom⟩ := Option.isSome_iff_exists.mp
      (pyMaxBy_isSome (fun e : ScoreEntry => e.score) _ (hne c hc))
    simp only [hdom] at hferr
    exact absurd hferr (by simp)
  · next ds heq =>
    split
    · next e heq2 =>
      rw [hfold0] at heq2
      exact absurd heq2 (by simp)
    · next worst heq2 =>
      have hw : worst = (0, none) := worstCaseFold_all_zero _ h0 worst heq2
      subst hw
      rw [if_neg (fun hand => hlen hand.2)]
      split
      · next heq3 =>
        exact absurd (List.map_eq_nil_iff.mp heq3) hchunks
      · next first rest heq3 =>
        have hfirstL : first.map (fun e => e.label) = L := by
          have hmem : first ∈ (chunkTextBySentences text chunkMaxTokens
              (ta.depressionEncode false)).map ta.depressionClassify := by
            rw [heq3]; exact List.mem_cons_self _ _
          exact hlab' first hmem
        rw [hfirstL, haggok]

/-- A concrete chunked analyzer: the aggregate encoding of any text is 481
tokens (above the 480 budget), each sentence encodes to 200 tokens, and the
depression classifier always returns the single-label distribution
`{"not depression": 1}`. -/
def mockChunkTa : ChunkedTextAnalyzer where
  emotionEncode := fun _ _ => []
  depressionEncode := fun full _ => if full then List.replicate 481 0 else List.replicate 200 0
  emotionClassify := fun _ => []
  depressionClassify := fun _ => [⟨"not depression", 1⟩]

set_option maxRecDepth 100000 in
theorem all_not_depression_chunks_raise_witness :
    analyzeDepressionChunked mockChunkTa "Aa. Bb." =
      .error "TypeError: 'NoneType' object is not subscriptable" :=
  all_not_depression_chunks_raise mockChunkTa "Aa. Bb." ["not depression"]
    (by decide) (by decide) (by decide) (by decide)
    (fun _ _ => rfl)
    (fun _ _ dom hdom => by
      have h1 : (⟨"not depression", (1 : ℚ)⟩ : ScoreEntry) = dom := by
        simpa [pyMaxBy] using hdom
      rw [← h1])

/-- C3: When chunking is applied, depression aggregation is worst-case — the
reported severity is the maximum mapped severity of the chunks' dominant
labels under `{"not depression": 0, "moderate": 5, "severe": 9}`, the
reported level is that severity mapped back (equal to the winning chunk's
dominant label), and the supplementary `all_scores` field is the
length-weighted average of the per-chunk distributions — while emotion
aggregation reports the length-weighted average as `all_emotions`. -/
theorem chunked_worst_case_and_weighted (ta : ChunkedTextAnalyzer) (text : String)
    (L M ds : List String)
    (htokD : chunkMaxTokens < (ta.depressionEncode true text).length)
    (hchunksD : chunkTextBySentences text chunkMaxTokens (ta.depressionEncode false) ≠ [])
    (hlenD : ((chunkTextBySentences text chunkMaxTokens (ta.depressionEncode false)).map
      (fun c => c.length)).sum ≠ 0)
    (hLne : L ≠ [])
    (hlabD : ∀ c ∈ chunkTextBySentences text chunkMaxTokens (ta.depressionEncode false),
      (ta.depressionClassify c).map (fun e => e.label) = L)
    (hds : exceptMapList chunkDominantLabel
      ((chunkTextBySentences text chunkMaxTokens (ta.depressionEncode false)).map
        ta.depressionClassify) = .ok ds)
    (hpos : 0 < (ds.map severityMapGet).foldl max 0)
    (htokE : chunkMaxTokens < (ta.emotionEncode true text).length)
    (hchunksE : chunkTextBySentences text chunkMaxTokens (ta.emotionEncode false) ≠ [])
    (hlenE : ((chunkTextBySentences text chunkMaxTokens (ta.emotionEncode false)).map
      (fun c => c.length)).sum ≠ 0)
    (hMne : M ≠ [])
    (hlabE : ∀ c ∈ chunkTextBySentences text chunkMaxTokens (ta.emotionEncode false),
      (ta.emotionClassify c).map (fun e => e.label) = M) :
    (∃ r, analyzeDepressionChunked ta text = .ok r ∧
      r.severity = (ds.map severityMapGet).foldl max 0 ∧
      r.depression_level = reverseSeverityMap r.severity ∧
      (∃ scores ∈ (chunkTextBySentences text chunkMaxTokens
          (ta.depressionEncode false)).map ta.depressionClassify, ∃ dom,
        pyMaxBy (fun e : ScoreEntry => e.score) scores = some dom ∧
        severityMapGet dom.label = r.severity ∧ r.depression_level = dom.label) ∧
      r.all_scores = (dedupKeepFirst L).map
        (fun l => ⟨l, ((((chunkTextBySentences text chunkMaxTokens
            (ta.depressionEncode false)).map ta.depressionClassify).map
              (fun cr => pyDictGetD cr l)).zip
            (chunkWeights (chunkTextBySentences text chunkMaxTokens
              (ta.depressionEncode false)))).map (fun p => p.1 * p.2) |>.sum⟩) ∧
      r.aggregation_method = some "worst-case (most conservative)") ∧
    (∃ re, analyzeEmotionChunked ta text = .ok re ∧
      re.all_emotions = (dedupKeepFirst M).map
        (fun l => ⟨l, ((((chunkTextBySentences text chunkMaxTokens
            (ta.emotionEncode false)).map ta.emotionClassify).map
              (fun cr => pyDictGetD cr l)).zip
            (chunkWeights (chunkTextBySentences text chunkMaxTokens
              (ta.emotionEncode false)))).map (fun p => p.1 * p.2) |>.sum⟩) ∧
      re.chunking_applied = true) := by
  have hneD : ∀ c ∈ chunkTextBySentences text chunkMaxTokens (ta.depressionEncode false),
      ta.depressionClassify c ≠ [] := by
    intro c hc hnil
    have hl := hlabD c hc
    rw [hnil] at hl
    exact hLne hl.symm
  have hlabD' : ∀ cr ∈ (chunkTextBySentences text chunkMaxTokens
        (ta.depressionEncode false)).map ta.depressionClassify,
      cr.map (fun e => e.label) = L := by
    intro cr hcr
    obtain ⟨c, hc, rfl⟩ := List.mem_map.mp hcr
    exact hlabD c hc
  have haggokD := aggregateWeighted_ok
    ((chunkTextBySentences text chunkMaxTokens
      (ta.depressionEncode false)).map ta.depressionClassify)
    (chunkWeights (chunkTextBySentences text chunkMaxTokens (ta.depressionEncode false)))
    L hlabD'
  obtain ⟨w0, hfold0, hw01⟩ := worstCaseFold_ok_max
    ((chunkTextBySentences text chunkMaxTokens
      (ta.depressionEncode false)).map ta.depressionClassify) ds hds (0, none)
  have hposw : 0 < w0.1 := by rw [hw01]; exact hpos
  rcases worstCaseFold_mem _ (0, none) w0 hfold0 with hw |
    ⟨scores, hw2, hmem, dom, hdom, hsev⟩
  · rw [hw] at hposw
    exact absurd hposw (by simp)
  have h9 : 0 < severityMapGet dom.label := by rw [hsev]; exact hposw
  have hrev : reverseSeverityMap w0.1 = dom.label := by
    rw [← hsev]
    exact severityMapGet_pos_inv _ h9
  have hget := pyDictGet_ok_of_mem scores dom.label
    (List.mem_map_of_mem _ (pyMaxBy_mem (fun e : ScoreEntry => e.score) scores dom hdom))
  constructor
  · refine ⟨{ depression_level := dom.label
              confidence := pyDictGetD scores dom.label
              severity := w0.1
              all_scores := (dedupKeepFirst L).map
                (fun l => ⟨l, ((((chunkTextBySentences text chunkMaxTokens
                    (ta.depressionEncode false)).map ta.depressionClassify).map
                      (fun cr => pyDictGetD cr l)).zip
                    (chunkWeights (chunkTextBySentences text chunkMaxTokens
                      (ta.depressionEncode false)))).map (fun p => p.1 * p.2) |>.sum⟩)
              chunks_analyzed := (chunkTextBySentences text chunkMaxTokens
                (ta.depressionEncode false)).length
              total_tokens := (ta.depressionEncode true text).length
              chunking_applied := true
              aggregation_method := some "worst-case (most conservative)" },
            ?_, hw01, hrev.symm, ⟨scores, hmem, dom, hdom, hsev, rfl⟩, rfl, rfl⟩
    simp only [analyzeDepressionChunked]
    rw [if_neg (Nat.not_le.mpr htokD)]
    split
    · next e heq =>
      obtain ⟨scores', hs, hferr⟩ := exceptMapList_error_inv _ _ _ heq
      obtain ⟨c, hc, rfl⟩ := List.mem_map.mp hs
      obtain ⟨dom', hdom'⟩ := Option.isSome_iff_exists.mp
        (pyMaxBy_isSome (fun e : ScoreEntry => e.score) _ (hneD c hc))
      simp only [hdom'] at hferr
      exact absurd hferr (by simp)
    · next ds' heq =>
      split
      · next e heq2 =>
        rw [hfold0] at heq2
        exact absurd heq2 (by simp)
      · next worst heq2 =>
        rw [hfold0] at heq2
        have hww : w0 = worst := (Except.ok.injEq _ _).mp heq2
        subst hww
        rw [if_neg (fun hand => hlenD hand.2)]
        split
        · next heq3 =>
          exact absurd (List.map_eq_nil_iff.mp heq3) hchunksD
        · next first rest heq3 =>
          have hfirstL : first.map (fun e => e.label) = L := by
            have hmemf : first ∈ (chunkTextBySentences text chunkMaxTokens
                (ta.depressionEncode false)).map ta.depressionClassify := by
              rw [heq3]; exact List.mem_cons_self _ _
            exact hlabD' first hmemf
          rw [hfirstL, haggokD, hw2, hrev]
          simp only [hget]
  · have hneE : ∀ c ∈ chunkTextBySentences text chunkMaxTokens (ta.emotionEncode false),
        ta.emotionClassify c ≠ [] := by
      intro c hc hnil
      have hl := hlabE c hc
      rw [hnil] at hl
      exact hMne hl.symm
    have hlabE' : ∀ cr ∈ (chunkTextBySentences text chunkMaxTokens
          (ta.emotionEncode false)).map ta.emotionClassify,
        cr.map (fun e => e.label) = M := by
      intro cr hcr
      obtain ⟨c, hc, rfl⟩ := List.mem_map.mp hcr
      exact hlabE c hc
    have haggokE := aggregateWeighted_ok
      ((chunkTextBySentences text chunkMaxTokens
        (ta.emotionEncode false)).map ta.emotionClassify)
      (chunkWeights (chunkTextBySentences text chunkMaxTokens (ta.emotionEncode false)))
      M hlabE'
    have hAne : (dedupKeepFirst M).map
        (fun l => (⟨l, ((((chunkTextBySentences text chunkMaxTokens
            (ta.emotionEncode false)).map ta.emotionClassify).map
              (fun cr => pyDictGetD cr l)).zip
            (chunkWeights (chunkTextBySentences text chunkMaxTokens
              (ta.emotionEncode false)))).map (fun p => p.1 * p.2) |>.sum⟩ : ScoreEntry)) ≠ [] := by
      intro hnil
      exact dedupKeepFirst_ne_nil M hMne (List.map_eq_nil_iff.mp hnil)
    obtain ⟨domE, hdomE⟩ := Option.isSome_iff_exists.mp
      (pyMaxBy_isSome (fun e : ScoreEntry => e.score) _ hAne)
    refine ⟨{ dominant_emotion := domE.label
              confidence := domE.score
              all_emotions := (dedupKeepFirst M).map
                (fun l => ⟨l, ((((chunkTextBySentences text chunkMaxTokens
                    (ta.emotionEncode false)).map ta.emotionClassify).map
                      (fun cr => pyDictGetD cr l)).zip
                    (chunkWeights (chunkTextBySentences text chunkMaxTokens
                      (ta.emotionEncode false)))).map (fun p => p.1 * p.2) |>.sum⟩)
              chunks_analyzed := (chunkTextBySentences text chunkMaxTokens
                (ta.emotionEncode false)).length
              total_tokens := (ta.emotionEncode true text).length
              chunking_applied := true },
            ?_, rfl, rfl⟩
    simp only [analyzeEmotionChunked]
    rw [if_neg (Nat.not_le.mpr htokE)]
    split
    · next e heq =>
      obtain ⟨scores', hs, hferr⟩ := exceptMapList_error_inv _ _ _ heq
      obtain ⟨c, hc, rfl⟩ := List.mem_map.mp hs
      obtain ⟨dom', hdom'⟩ := Option.isSome_iff_exists.mp
        (pyMaxBy_isSome (fun e : ScoreEntry => e.score) _ (hneE c hc))
      simp only [hdom'] at hferr
      exact absurd hferr (by simp)
    · next ds' heq =>
      rw [if_neg (fun hand => hlenE hand.2)]
      split
      · next heq3 =>
        exact absurd (List.map_eq_nil_iff.mp heq3) hchunksE
      · next first rest heq3 =>
        have hfirstM : first.map (fun e => e.label) = M := by
          have hmemf : first ∈ (chunkTextBySentences text chunkMaxTokens
              (ta.emotionEncode false)).map ta.emotionClassify := by
            rw [heq3]; exact List.mem_cons_self _ _
          exact hlabE' first hmemf
        rw [hfirstM, haggokE]
        simp only [hdomE]

/-- A chunked analyzer whose text splits into the three chunks `"Aa."`,
`"Bb."`, `"Cc."` (each sentence encodes to 300 tokens, above half the 480
budget; the aggregate encoding is 481 tokens), with per-chunk dominant
depression labels "not depression", "moderate", "severe". -/
def mockChunkTa3 : ChunkedTextAnalyzer where
  emotionEncode := fun full _ => if full then List.replicate 481 0 else List.replicate 300 0
  depressionEncode := fun full _ => if full then List.replicate 481 0 else List.replicate 300 0
  emotionClassify := fun _ => [⟨"joy", 1⟩, ⟨"sadness", 2⟩]
  depressionClassify := fun s =>
    if s = "Aa." then [⟨"not depression", 3⟩, ⟨"moderate", 2⟩, ⟨"severe", 1⟩]
    else if s = "Bb." then [⟨"not depression", 1⟩, ⟨"moderate", 3⟩, ⟨"severe", 2⟩]
    else [⟨"not depression", 1⟩, ⟨"moderate", 2⟩, ⟨"severe", 3⟩]

set_option maxRecDepth 100000 in
theorem chunked_worst_case_and_weighted_witness :
    ∃ r, analyzeDepressionChunked mockChunkTa3 "Aa. Bb. Cc." = .ok r ∧
      r.severity = 9 ∧ r.depression_level = "severe" := by
  obtain ⟨⟨r, hok, hsev, hlev, _, _, _⟩, _⟩ :=
    chunked_worst_case_and_weighted mockChunkTa3 "Aa. Bb. Cc."
      ["not depression", "moderate", "severe"] ["joy", "sadness"]
      ["not depression", "moderate", "severe"]
      (by decide) (by decide) (by decide) (by decide) (by decide) (by rfl)
      (by decide) (by decide) (by decide) (by decide) (by decide) (by decide)
  refine ⟨r, hok, ?_, ?_⟩
  · rw [hsev]; decide
  · rw [hlev, hsev]; decide

theorem phoneSubAux_nil (prev : Option Char) : phoneSubAux prev [] = [] := by
  rw [phoneSubAux]

theorem phoneSubAux_cons_none (prev : Option Char) (c : Char) (rest : List Char)
    (h : phoneMatchAt prev (c :: rest) = none) :
    phoneSubAux prev (c :: rest) = c :: phoneSubAux (some c) rest := by
  rw [phoneSubAux]
  split
  · next p heq => rw [h] at heq; exact absurd heq (by simp)
  · rfl

theorem phoneSubAux_cons_some (prev : Option Char) (c : Char) (rest : List Char)
    (m r : List Char) (h : phoneMatchAt prev (c :: rest) = some (m, r)) :
    phoneSubAux prev (c :: rest) = "[PHONE]".data ++ phoneSubAux (some (m.getLastD c)) r := by
  rw [phoneSubAux]
  split
  · next p heq =>
    rw [h] at heq
    have hp : (m, r) = p := (Option.some.injEq _ _).mp heq
    subst hp
    rfl
  · next heq => rw [h] at heq; exact absurd heq (by simp)

theorem emailSubAux_nil (prev : Option Char) : emailSubAux prev [] = [] := by
  rw [emailSubAux]

theorem emailSubAux_cons_none (prev : Option Char) (c : Char) (rest : List Char)
    (h : emailMatchAt prev (c :: rest) = none) :
    emailSubAux prev (c :: rest) = c :: emailSubAux (some c) rest := by
  rw [emailSubAux]
  split
  · next p heq => rw [h] at heq; exact absurd heq (by simp)
  · rfl

theorem emailSubAux_cons_some (prev : Option Char) (c : Char) (rest : List Char)
    (m r : List Char) (h : emailMatchAt prev (c :: rest) = some (m, r)) :
    emailSubAux prev (c :: rest) = "[EMAIL]".data ++ emailSubAux (some (m.getLastD c)) r := by
  rw [emailSubAux]
  split
  · next p heq =>
    rw [h] at heq
    have hp : (m, r) = p := (Option.some.injEq _ _).mp heq
    subst hp
    rfl
  · next heq => rw [h] at heq; exact absurd heq (by simp)

/-- Fuel-indexed, structurally recursive version of the phone-substitution
scan, used to evaluate the scanner on concrete inputs. -/
def phoneSubFuel : ℕ → Option Char → List Char → List Char
  | 0, _, cs => cs
  | _ + 1, _, [] => []
  | n + 1, prev, c :: rest =>
    match phoneMatchAt prev (c :: rest) with
    | some p => "[PHONE]".data ++ phoneSubFuel n (some (p.1.getLastD c)) p.2
    | none => c :: phoneSubFuel n (some c) rest

theorem phoneSubFuel_eq (n : ℕ) (prev : Option Char) (cs : List Char)
    (h : cs.length ≤ n) : phoneSubFuel n prev cs = phoneSubAux prev cs := by
  induction n generalizing prev cs with
  | zero =>
    cases cs with
    | nil => rw [phoneSubAux_nil]; rfl
    | cons c rest => simp at h
  | succ k ih =>
    cases cs with
    | nil => rw [phoneSubAux_nil]; rfl
    | cons c rest =>
      cases hm : phoneMatchAt prev (c :: rest) with
      | none =>
        rw [phoneSubAux_cons_none prev c rest hm]
        simp only [phoneSubFuel, hm]
        rw [ih (some c) rest (by simpa using Nat.le_of_succ_le_succ h)]
      | some p =>
        rw [phoneSubAux_cons_some prev c rest p.1 p.2 (by rw [hm])]
        simp only [phoneSubFuel, hm]
        obtain ⟨he, _⟩ := phoneMatchAt_spec prev _ p.1 p.2 (by rw [hm])
        have hlen : p.2.length ≤ k := by
          have htot : (c :: rest).length = p.1.length + p.2.length := by rw [he]; simp
          obtain ⟨_, hpos⟩ := phoneMatchAt_spec prev _ p.1 p.2 (by rw [hm])
          simp only [List.length_cons] at htot h
          omega
        rw [ih _ _ hlen]

/-- Fuel-indexed, structurally recursive version of the email-substitution
scan. -/
def emailSubFuel : ℕ → Option Char → List Char → List Char
  | 0, _, cs => cs
  | _ + 1, _, [] => []
  | n + 1, prev, c :: rest =>
    match emailMatchAt prev (c :: rest) with
    | some p => "[EMAIL]".data ++ emailSubFuel n (some (p.1.getLastD c)) p.2
    | none => c :: emailSubFuel n (some c) rest

theorem emailSubFuel_eq (n : ℕ) (prev : Option Char) (cs : List Char)
    (h : cs.length ≤ n) : emailSubFuel n prev cs = emailSubAux prev cs := by
  induction n generalizing prev cs with
  | zero =>
    cases cs with
    | nil => rw [emailSubAux_nil]; rfl
    | cons c rest => simp at h
  | succ k ih =>
    cases cs with
    | nil => rw [emailSubAux_nil]; rfl
    | cons c rest =>
      cases hm : emailMatchAt prev (c :: rest) with
      | none =>
        rw [emailSubAux_cons_none prev c rest hm]
        simp only [emailSubFuel, hm]
        rw [ih (some c) rest (by simpa using Nat.le_of_succ_le_succ h)]
      | some p =>
        rw [emailSubAux_cons_some prev c rest p.1 p.2 (by rw [hm])]
        simp only [emailSubFuel, hm]
        obtain ⟨he, _⟩ := emailMatchAt_spec prev _ p.1 p.2 (by rw [hm])
        have hlen : p.2.length ≤ k := by
          have htot : (c :: rest).length = p.1.length + p.2.length := by rw [he]; simp
          obtain ⟨_, hpos⟩ := emailMatchAt_spec prev _ p.1 p.2 (by rw [hm])
          simp only [List.length_cons] at htot h
          omega
        rw [ih _ _ hlen]

/-- `seg` occurs as a contiguous substring of the second argument. -/
def hasSeg (seg : List Char) : List Char → Bool
  | [] => decide (seg = [])
  | c :: t => decide ((c :: t).take seg.length = seg) || hasSeg seg t

theorem hasSeg_exists (seg hay : List Char) (h : hasSeg seg hay = true) :
    ∃ a b, hay = a ++ seg ++ b := by
  induction hay with
  | nil =>
    simp only [hasSeg, decide_eq_true_eq] at h
    exact ⟨[], [], by simp [h]⟩
  | cons c t ih =>
    simp only [hasSeg, Bool.or_eq_true, decide_eq_true_eq] at h
    rcases h with h | h
    · refine ⟨[], (c :: t).drop seg.length, ?_⟩
      conv_lhs => rw [← List.take_append_drop seg.length (c :: t)]
      rw [h]
      simp
    · obtain ⟨a, b, hab⟩ := ih h
      exact ⟨c :: a, b, by simp [hab]⟩

/-- C9 counterexample: `"12345678901"` (eleven digits, no NER entities)
contains the substring `"1234567890"`, which matches the claim's bare
pattern `\d{3}[-.]?\d{3}[-.]?\d{4}` (both optional separators omitted) — yet
`remove_pii` leaves the text unchanged, because the `\b` anchors the code
adds around the pattern reject every ten-digit window inside an eleven-digit
run; the output therefore still contains that exact substring. -/
theorem pii_phone_shaped_substring_survives :
    (∃ b1 b2 : Bool, parseArm b1 b2 "1234567890".data = some ("1234567890".data, [])) ∧
    hasSeg "1234567890".data "12345678901".data = true ∧
    removePii mockTextAnalyzer "12345678901" = "12345678901" ∧
    hasSeg "1234567890".data (removePii mockTextAnalyzer "12345678901").data = true := by
  have h1 : phoneSubAux none "12345678901".data = "12345678901".data := by
    rw [← phoneSubFuel_eq 11 none "12345678901".data (by decide)]
    decide
  have h2 : emailSubAux none "12345678901".data = "12345678901".data := by
    rw [← emailSubFuel_eq 11 none "12345678901".data (by decide)]
    decide
  have h3 : removePii mockTextAnalyzer "12345678901" = "12345678901" := by
    simp only [removePii]
    have hred : redactEnts (mockTextAnalyzer.nlpEnts "12345678901")
        "12345678901".data = "12345678901".data := rfl
    rw [hred, h1, h2]
  exact ⟨⟨false, false, by decide⟩, by decide, h3, by rw [h3]; decide⟩

theorem pyWordChar_of_digit (c : Char) (h : c.isDigit = true) : pyWordChar c = true := by
  simp [pyWordChar, Char.isAlphanum, h]

theorem nondigit_of_nonword (c : Char) (h : pyWordChar c = false) : c.isDigit = false := by
  cases hd : c.isDigit with
  | false => rfl
  | true => rw [pyWordChar_of_digit c hd] at h; exact absurd h (by simp)

theorem phoneCore_none_of_head_nondigit (c : Char) (rest : List Char)
    (h : c.isDigit = false) : phoneCore (c :: rest) = none := by
  have hd : parseDigits 3 (c :: rest) = none := by
    show parseDigits (2 + 1) (c :: rest) = none
    simp [parseDigits, h]
  have harm : ∀ b1 b2, parseArm b1 b2 (c :: rest) = none := by
    intro b1 b2
    simp [parseArm, bind, hd, Option.bind]
  simp [phoneCore, armWithBoundary, harm]

theorem phoneMatchAt_none_of_head_nondigit (prev : Option Char) (c : Char)
    (rest : List Char) (h : c.isDigit = false) :
    phoneMatchAt prev (c :: rest) = none := by
  simp [phoneMatchAt, phoneCore_none_of_head_nondigit c rest h, ite_self]

/-- The phone scan is the identity on a region without word characters. -/
theorem phoneSubAux_inert (cs : List Char) (h : ∀ c ∈ cs, pyWordChar c = false) :
    ∀ prev, phoneSubAux prev cs = cs := by
  induction cs with
  | nil => intro prev; exact phoneSubAux_nil prev
  | cons c rest ih =>
    intro prev
    have hc : c.isDigit = false := nondigit_of_nonword c (h c (by simp))
    rw [phoneSubAux_cons_none prev c rest (phoneMatchAt_none_of_head_nondigit prev c rest hc)]
    rw [ih (fun x hx => h x (List.mem_cons_of_mem c hx)) (some c)]

theorem parseDigits_exact (m x : List Char) (hq : ∀ c ∈ m, c.isDigit = true) :
    parseDigits m.length (m ++ x) = some (m, x) := by
  induction m with
  | nil => rfl
  | cons c m' ih =>
    simp only [List.length_cons, List.cons_append, parseDigits, hq c (by simp), if_true,
      List.append_eq]
    rw [ih (fun y hy => hq y (List.mem_cons_of_mem c hy))]
    rfl

theorem parseSep_build (b : Bool) (s x : List Char)
    (hs : (b = false ∧ s = []) ∨ (b = true ∧ ∃ c, s = [c] ∧ isSepChar c = true)) :
    parseSep b (s ++ x) = some (s, x) := by
  rcases hs with ⟨rfl, rfl⟩ | ⟨rfl, c, rfl, hc⟩
  · rfl
  · simp [parseSep, hc]

theorem sep_of_digit_false (c : Char) (h : c.isDigit = true) : isSepChar c = false := by
  cases hs : isSepChar c with
  | false => rfl
  | true =>
    rcases (by simpa [isSepChar] using hs : c = '-' ∨ c = '.') with rfl | rfl <;> simp at h

theorem parseSep_true_digit (c : Char) (x : List Char) (h : c.isDigit = true) :
    parseSep true (c :: x) = none := by
  simp [parseSep, sep_of_digit_false c h]

theorem parseArm_build (b1 b2 : Bool) (d1 s1 d2 s2 d3 rest : List Char)
    (hd1 : d1.length = 3) (hq1 : ∀ c ∈ d1, c.isDigit = true)
    (hd2 : d2.length = 3) (hq2 : ∀ c ∈ d2, c.isDigit = true)
    (hd3 : d3.length = 4) (hq3 : ∀ c ∈ d3, c.isDigit = true)
    (hs1 : (b1 = false ∧ s1 = []) ∨ (b1 = true ∧ ∃ c, s1 = [c] ∧ isSepChar c = true))
    (hs2 : (b2 = false ∧ s2 = []) ∨ (b2 = true ∧ ∃ c, s2 = [c] ∧ isSepChar c = true)) :
    parseArm b1 b2 (d1 ++ (s1 ++ (d2 ++ (s2 ++ (d3 ++ rest))))) =
      some (d1 ++ s1 ++ d2 ++ s2 ++ d3, rest) := by
  have h1 : parseDigits 3 (d1 ++ (s1 ++ (d2 ++ (s2 ++ (d3 ++ rest))))) =
      some (d1, s1 ++ (d2 ++ (s2 ++ (d3 ++ rest)))) := by
    rw [← hd1]; exact parseDigits_exact d1 _ hq1
  have h2 : parseSep b1 (s1 ++ (d2 ++ (s2 ++ (d3 ++ rest)))) =
      some (s1, d2 ++ (s2 ++ (d3 ++ rest))) := parseSep_build b1 s1 _ hs1
  have h3 : parseDigits 3 (d2 ++ (s2 ++ (d3 ++ rest))) =
      some (d2, s2 ++ (d3 ++ rest)) := by
    rw [← hd2]; exact parseDigits_exact d2 _ hq2
  have h4 : parseSep b2 (s2 ++ (d3 ++ rest)) = some (s2, d3 ++ rest) :=
    parseSep_build b2 s2 _ hs2
  have h5 : parseDigits 4 (d3 ++ rest) = some (d3, rest) := by
    rw [← hd3]; exact parseDigits_exact d3 _ hq3
  simp only [parseArm, bind, h1, Option.bind, h2, h3, h4, h5, List.append_assoc]

theorem parseArm_sep1_fail (b2 : Bool) (d1 : List Char) (c : Char) (xs : List Char)
    (hd1 : d1.length = 3) (hq1 : ∀ c ∈ d1, c.isDigit = true) (hc : c.isDigit = true) :
    parseArm true b2 (d1 ++ c :: xs) = none := by
  have h1 : parseDigits 3 (d1 ++ c :: xs) = some (d1, c :: xs) := by
    rw [← hd1]; exact parseDigits_exact d1 _ hq1
  have h2 : parseSep true (c :: xs) = none := parseSep_true_digit c xs hc
  simp only [parseArm, bind, h1, Option.bind, h2]

theorem parseArm_sep2_fail (d1 s1 d2 : List Char) (c : Char) (xs : List Char) (b1 : Bool)
    (hd1 : d1.length = 3) (hq1 : ∀ c ∈ d1, c.isDigit = true)
    (hd2 : d2.length = 3) (hq2 : ∀ c ∈ d2, c.isDigit = true)
    (hs1 : (b1 = false ∧ s1 = []) ∨ (b1 = true ∧ ∃ c, s1 = [c] ∧ isSepChar c = true))
    (hc : c.isDigit = true) :
    parseArm b1 true (d1 ++ (s1 ++ (d2 ++ c :: xs))) = none := by
  have h1 : parseDigits 3 (d1 ++ (s1 ++ (d2 ++ c :: xs))) =
      some (d1, s1 ++ (d2 ++ c :: xs)) := by
    rw [← hd1]; exact parseDigits_exact d1 _ hq1
  have h2 : parseSep b1 (s1 ++ (d2 ++ c :: xs)) = some (s1, d2 ++ c :: xs) :=
    parseSep_build b1 s1 _ hs1
  have h3 : parseDigits 3 (d2 ++ c :: xs) = some (d2, c :: xs) := by
    rw [← hd2]; exact parseDigits_exact d2 _ hq2
  have h4 : parseSep true (c :: xs) = none := parseSep_true_digit c xs hc
  simp only [parseArm, bind, h1, Option.bind, h2, h3, h4]

/-- With a word boundary available after `post`, the phone pattern matches
exactly a boundary-delimited phone-shaped body `d1 s1 d2 s2 d3`: every
backtracking alternative ordered before the body's own separator layout
fails on a digit where it expects a separator. -/
theorem phoneCore_exact (d1 s1 d2 s2 d3 post : List Char)
    (hd1 : d1.length = 3) (hq1 : ∀ c ∈ d1, c.isDigit = true)
    (hd2 : d2.length = 3) (hq2 : ∀ c ∈ d2, c.isDigit = true)
    (hd3 : d3.length = 4) (hq3 : ∀ c ∈ d3, c.isDigit = true)
    (hs1 : s1 = [] ∨ ∃ c, s1 = [c] ∧ isSepChar c = true)
    (hs2 : s2 = [] ∨ ∃ c, s2 = [c] ∧ isSepChar c = true)
    (htb : trailingBoundary post = true) :
    phoneCore (d1 ++ (s1 ++ (d2 ++ (s2 ++ (d3 ++ post))))) =
      some (d1 ++ s1 ++ d2 ++ s2 ++ d3, post) := by
  cases d2 with
  | nil => simp at hd2
  | cons c2 d2' =>
  cases d3 with
  | nil => simp at hd3
  | cons c3 d3' =>
  have hc2 : c2.isDigit = true := hq2 c2 (by simp)
  have hc3 : c3.isDigit = true := hq3 c3 (by simp)
  rcases hs1 with rfl | ⟨a, rfl, ha⟩
  · rcases hs2 with rfl | ⟨b, rfl, hb⟩
    · -- both separators absent: the three earlier alternatives all fail
      simp only [List.nil_append, List.cons_append, List.append_assoc]
      have e1 := parseArm_sep1_fail true d1 c2 (d2' ++ (c3 :: (d3' ++ post))) hd1 hq1 hc2
      have e2 := parseArm_sep1_fail false d1 c2 (d2' ++ (c3 :: (d3' ++ post))) hd1 hq1 hc2
      have e3 := parseArm_sep2_fail d1 [] (c2 :: d2') c3 (d3' ++ post) false
        hd1 hq1 hd2 hq2 (Or.inl ⟨rfl, rfl⟩) hc3
      have e4 := parseArm_build false false d1 [] (c2 :: d2') [] (c3 :: d3') post
        hd1 hq1 hd2 hq2 hd3 hq3 (Or.inl ⟨rfl, rfl⟩) (Or.inl ⟨rfl, rfl⟩)
      simp only [List.nil_append, List.cons_append, List.append_assoc] at e3 e4
      have a1 : armWithBoundary true true (d1 ++ c2 :: (d2' ++ (c3 :: (d3' ++ post)))) =
          none := by simp only [armWithBoundary, e1]
      have a2 : armWithBoundary true false (d1 ++ c2 :: (d2' ++ (c3 :: (d3' ++ post)))) =
          none := by simp only [armWithBoundary, e2]
      have a3 : armWithBoundary false true (d1 ++ c2 :: (d2' ++ (c3 :: (d3' ++ post)))) =
          none := by simp only [armWithBoundary, e3]
      have a4 : armWithBoundary false false (d1 ++ c2 :: (d2' ++ (c3 :: (d3' ++ post)))) =
          some (d1 ++ c2 :: (d2' ++ (c3 :: d3')), post) := by
        simp only [armWithBoundary, e4, htb, if_true]
      simp only [phoneCore, a1, a2, a3, a4]
    · -- first separator absent, second present
      simp only [List.nil_append, List.cons_append, List.append_assoc]
      have e1 := parseArm_sep1_fail true d1 c2 (d2' ++ (b :: (c3 :: (d3' ++ post))))
        hd1 hq1 hc2
      have e2 := parseArm_sep1_fail false d1 c2 (d2' ++ (b :: (c3 :: (d3' ++ post))))
        hd1 hq1 hc2
      have e3 := parseArm_build false true d1 [] (c2 :: d2') [b] (c3 :: d3') post
        hd1 hq1 hd2 hq2 hd3 hq3 (Or.inl ⟨rfl, rfl⟩) (Or.inr ⟨rfl, b, rfl, hb⟩)
      simp only [List.nil_append, List.cons_append, List.append_assoc] at e3
      have a1 : armWithBoundary true true
          (d1 ++ c2 :: (d2' ++ (b :: (c3 :: (d3' ++ post))))) = none := by
        simp only [armWithBoundary, e1]
      have a2 : armWithBoundary true false
          (d1 ++ c2 :: (d2' ++ (b :: (c3 :: (d3' ++ post))))) = none := by
        simp only [armWithBoundary, e2]
      have a3 : armWithBoundary false true
          (d1 ++ c2 :: (d2' ++ (b :: (c3 :: (d3' ++ post))))) =
          some (d1 ++ c2 :: (d2' ++ (b :: (c3 :: d3'))), post) := by
        simp only [armWithBoundary, e3, htb, if_true]
      simp only [phoneCore, a1, a2, a3]
  · rcases hs2 with rfl | ⟨b, rfl, hb⟩
    · -- first separator present, second absent
      simp only [List.nil_append, List.cons_append, List.append_assoc]
      have e1 := parseArm_sep2_fail d1 [a] (c2 :: d2') c3 (d3' ++ post) true
        hd1 hq1 hd2 hq2 (Or.inr ⟨rfl, a, rfl, ha⟩) hc3
      have e2 := parseArm_build true false d1 [a] (c2 :: d2') [] (c3 :: d3') post
        hd1 hq1 hd2 hq2 hd3 hq3 (Or.inr ⟨rfl, a, rfl, ha⟩) (Or.inl ⟨rfl, rfl⟩)
      simp only [List.nil_append, List.cons_append, List.append_assoc] at e1 e2
      have a1 : armWithBoundary true true
          (d1 ++ a :: (c2 :: (d2' ++ (c3 :: (d3' ++ post))))) = none := by
        simp only [armWithBoundary, e1]
      have a2 : armWithBoundary true false
          (d1 ++ a :: (c2 :: (d2' ++ (c3 :: (d3' ++ post))))) =
          some (d1 ++ a :: (c2 :: (d2' ++ (c3 :: d3'))), post) := by
        simp only [armWithBoundary, e2, htb, if_true]
      simp only [phoneCore, a1, a2]
    · -- both separators present: the first alternative matches outright
      simp only [List.nil_append, List.cons_append, List.append_assoc]
      have e1 := parseArm_build true true d1 [a] (c2 :: d2') [b] (c3 :: d3') post
        hd1 hq1 hd2 hq2 hd3 hq3 (Or.inr ⟨rfl, a, rfl, ha⟩) (Or.inr ⟨rfl, b, rfl, hb⟩)
      simp only [List.nil_append, List.cons_append, List.append_assoc] at e1
      have a1 : armWithBoundary true true
          (d1 ++ a :: (c2 :: (d2' ++ (b :: (c3 :: (d3' ++ post)))))) =
          some (d1 ++ a :: (c2 :: (d2' ++ (b :: (c3 :: d3')))), post) := by
        simp only [armWithBoundary, e1, htb, if_true]
      simp only [phoneCore, a1]

/-- Scanning a word-character-free prefix, a boundary-delimited phone-shaped
body, and a word-character-free suffix replaces exactly the body. -/
theorem phoneSubAux_exact (pre : List Char) (d1 s1 d2 s2 d3 post : List Char)
    (hd1 : d1.length = 3) (hq1 : ∀ c ∈ d1, c.isDigit = true)
    (hd2 : d2.length = 3) (hq2 : ∀ c ∈ d2, c.isDigit = true)
    (hd3 : d3.length = 4) (hq3 : ∀ c ∈ d3, c.isDigit = true)
    (hs1 : s1 = [] ∨ ∃ c, s1 = [c] ∧ isSepChar c = true)
    (hs2 : s2 = [] ∨ ∃ c, s2 = [c] ∧ isSepChar c = true)
    (hpre : ∀ c ∈ pre, pyWordChar c = false)
    (hpost : ∀ c ∈ post, pyWordChar c = false) :
    ∀ prev, (∀ p, prev = some p → pyWordChar p = false) →
      phoneSubAux prev (pre ++ ((d1 ++ (s1 ++ (d2 ++ (s2 ++ d3)))) ++ post)) =
        pre ++ "[PHONE]".data ++ post := by
  have htb : trailingBoundary post = true := by
    cases post with
    | nil => rfl
    | cons c rest => simp [trailingBoundary, hpost c (by simp)]
  induction pre with
  | nil =>
    intro prev hprev
    cases d1 with
    | nil => simp at hd1
    | cons a d1' =>
      have ha : a.isDigit = true := hq1 a (by simp)
      have hbody : (a :: d1') ++ (s1 ++ (d2 ++ (s2 ++ d3))) ++ post =
          a :: (d1' ++ (s1 ++ (d2 ++ (s2 ++ (d3 ++ post))))) := by
        simp [List.append_assoc]
      have hcore : phoneCore ((a :: d1') ++ (s1 ++ (d2 ++ (s2 ++ (d3 ++ post))))) =
          some ((a :: d1') ++ s1 ++ d2 ++ s2 ++ d3, post) :=
        phoneCore_exact (a :: d1') s1 d2 s2 d3 post hd1 hq1 hd2 hq2 hd3 hq3 hs1 hs2 htb
      have hbound : atBoundary prev (a :: (d1' ++ (s1 ++ (d2 ++ (s2 ++ (d3 ++ post)))))) =
          true := by
        cases prev with
        | none => simp [atBoundary, pyWordChar_of_digit a ha]
        | some p =>
          simp [atBoundary, pyWordChar_of_digit a ha, hprev p rfl]
      have hmatch : phoneMatchAt prev (a :: (d1' ++ (s1 ++ (d2 ++ (s2 ++ (d3 ++ post)))))) =
          some ((a :: d1') ++ s1 ++ d2 ++ s2 ++ d3, post) := by
        rw [phoneMatchAt, if_pos hbound]
        rw [show a :: (d1' ++ (s1 ++ (d2 ++ (s2 ++ (d3 ++ post))))) =
          (a :: d1') ++ (s1 ++ (d2 ++ (s2 ++ (d3 ++ post)))) from by simp]
        exact hcore
      rw [List.nil_append, hbody,
        phoneSubAux_cons_some prev a _ ((a :: d1') ++ s1 ++ d2 ++ s2 ++ d3) post hmatch,
        phoneSubAux_inert post hpost]
      rfl
  | cons c pre' ih =>
    intro prev hprev
    have hc : c.isDigit = false := nondigit_of_nonword c (hpre c (by simp))
    rw [List.cons_append,
      phoneSubAux_cons_none prev c _ (phoneMatchAt_none_of_head_nondigit prev c _ hc),
      ih (fun x hx => hpre x (List.mem_cons_of_mem c hx)) (some c)
        (fun p hp => by rw [(Option.some.injEq _ _).mp hp.symm]; exact hpre c (by simp))]
    rfl

theorem mem_of_mem_dropWhile {α : Type} (p : α → Bool) (l : List α) (x : α)
    (h : x ∈ l.dropWhile p) : x ∈ l := by
  induction l with
  | nil => simp [List.dropWhile] at h
  | cons a t ih =>
    simp only [List.dropWhile] at h
    by_cases hp : p a
    · rw [hp] at h
      exact List.mem_cons_of_mem a (ih h)
    · simp only [Bool.not_eq_true] at hp
      rw [hp] at h
      exact h

theorem emailCore_none_of_no_at (cs : List Char) (h : '@' ∉ cs) :
    emailCore cs = none := by
  simp only [emailCore]
  by_cases he : (cs.takeWhile localClass).isEmpty
  · rw [if_pos he]
  · rw [if_neg he]
    cases hr : cs.dropWhile localClass with
    | nil => rfl
    | cons c r2 =>
      have hcne : c ≠ '@' := by
        intro hcc
        refine h (mem_of_mem_dropWhile localClass cs '@' ?_)
        rw [hr, hcc]
        simp
      cases hcc : c
      simp_all

/-- The email scan is the identity on a string without `'@'`. -/
theorem emailSubAux_no_at (cs : List Char) (h : '@' ∉ cs) :
    ∀ prev, emailSubAux prev cs = cs := by
  induction cs with
  | nil => intro prev; exact emailSubAux_nil prev
  | cons c rest ih =>
    intro prev
    have hm : emailMatchAt prev (c :: rest) = none := by
      simp [emailMatchAt, emailCore_none_of_no_at (c :: rest) h, ite_self]
    rw [emailSubAux_cons_none prev c rest hm,
      ih (fun hx => h (List.mem_cons_of_mem c hx)) (some c)]

def digitCount (l : List Char) : ℕ := (l.filter (fun c => c.isDigit)).length

theorem digitCount_append (a b : List Char) :
    digitCount (a ++ b) = digitCount a + digitCount b := by
  simp [digitCount, List.filter_append]

theorem digitCount_zero (l : List Char) (h : ∀ c ∈ l, c.isDigit = false) :
    digitCount l = 0 := by
  simp only [digitCount, List.length_eq_zero, List.filter_eq_nil_iff]
  intro c hc
  simp [h c hc]

theorem digitCount_all (l : List Char) (h : ∀ c ∈ l, c.isDigit = true) :
    digitCount l = l.length := by
  unfold digitCount
  rw [List.filter_eq_self.mpr (fun c hc => h c hc)]

/-- C9 (amended): the code's phone pattern carries `\b` anchors, so the
guarantee holds for boundary-delimited occurrences: if the text is a
phone-shaped body (the claim's `\d{3}[-.]?\d{3}[-.]?\d{4}`) surrounded by
word-character-free, `'@'`-free context and carries no NER entities, then
`remove_pii` replaces exactly the body with `[PHONE]`, and the output no
longer contains the phone-shaped substring. -/
theorem pii_delimited_phone_shaped_substring_removed (ta : TextAnalyzer)
    (pre d1 s1 d2 s2 d3 post : List Char)
    (hents : ta.nlpEnts
      (String.mk (pre ++ ((d1 ++ (s1 ++ (d2 ++ (s2 ++ d3)))) ++ post))) = [])
    (hd1 : d1.length = 3) (hq1 : ∀ c ∈ d1, c.isDigit = true)
    (hd2 : d2.length = 3) (hq2 : ∀ c ∈ d2, c.isDigit = true)
    (hd3 : d3.length = 4) (hq3 : ∀ c ∈ d3, c.isDigit = true)
    (hs1 : s1 = [] ∨ ∃ c, s1 = [c] ∧ isSepChar c = true)
    (hs2 : s2 = [] ∨ ∃ c, s2 = [c] ∧ isSepChar c = true)
    (hpre : ∀ c ∈ pre, pyWordChar c = false ∧ c ≠ '@')
    (hpost : ∀ c ∈ post, pyWordChar c = false ∧ c ≠ '@') :
    removePii ta (String.mk (pre ++ ((d1 ++ (s1 ++ (d2 ++ (s2 ++ d3)))) ++ post))) =
      String.mk (pre ++ "[PHONE]".data ++ post) ∧
    hasSeg (d1 ++ (s1 ++ (d2 ++ (s2 ++ d3)))) (pre ++ "[PHONE]".data ++ post) = false := by
  have hphone := phoneSubAux_exact pre d1 s1 d2 s2 d3 post hd1 hq1 hd2 hq2 hd3 hq3 hs1 hs2
    (fun c hc => (hpre c hc).1) (fun c hc => (hpost c hc).1) none (fun p hp => by cases hp)
  have hnoat : '@' ∉ pre ++ "[PHONE]".data ++ post := by
    intro hmem
    rcases List.mem_append.mp hmem with hmem | hmem
    · rcases List.mem_append.mp hmem with hmem | hmem
      · exact (hpre _ hmem).2 rfl
      · exact absurd hmem (by decide)
    · exact (hpost _ hmem).2 rfl
  have hemail := emailSubAux_no_at _ hnoat none
  constructor
  · simp only [removePii]
    rw [hents]
    have hred : redactEnts []
        (String.mk (pre ++ ((d1 ++ (s1 ++ (d2 ++ (s2 ++ d3)))) ++ post))).data =
        pre ++ ((d1 ++ (s1 ++ (d2 ++ (s2 ++ d3)))) ++ post) := rfl
    rw [hred, hphone, hemail]
  · cases hb : hasSeg (d1 ++ (s1 ++ (d2 ++ (s2 ++ d3))))
        (pre ++ "[PHONE]".data ++ post) with
    | false => rfl
    | true =>
      exfalso
      obtain ⟨x, y, hxy⟩ := hasSeg_exists _ _ hb
      have h1 : digitCount (pre ++ "[PHONE]".data ++ post) = 0 := by
        rw [digitCount_append, digitCount_append,
          digitCount_zero pre (fun c hc => nondigit_of_nonword c (hpre c hc).1),
          digitCount_zero post (fun c hc => nondigit_of_nonword c (hpost c hc).1)]
        decide
      have h2 : digitCount (d1 ++ (s1 ++ (d2 ++ (s2 ++ d3)))) =
          digitCount d1 + (digitCount s1 + (digitCount d2 +
            (digitCount s2 + digitCount d3))) := by
        simp [digitCount_append]
      have h3 : digitCount d1 = 3 := by rw [digitCount_all d1 hq1, hd1]
      rw [hxy, digitCount_append, digitCount_append, h2, h3] at h1
      omega

/-- Witness input: `" 123-456-7890 "` with no NER entities. -/
theorem pii_delimited_phone_shaped_substring_removed_witness :
    removePii mockTextAnalyzer
      (String.mk (" ".data ++ (("123".data ++ ("-".data ++ ("456".data ++
        ("-".data ++ "7890".data)))) ++ " ".data))) =
      String.mk (" ".data ++ "[PHONE]".data ++ " ".data) ∧
    hasSeg ("123".data ++ ("-".data ++ ("456".data ++ ("-".data ++ "7890".data))))
      (" ".data ++ "[PHONE]".data ++ " ".data) = false :=
  pii_delimited_phone_shaped_substring_removed mockTextAnalyzer
    " ".data "123".data "-".data "456".data "-".data "7890".data " ".data
    rfl (by decide) (by decide) (by decide) (by decide) (by decide) (by decide)
    (Or.inr ⟨'-', rfl, by decide⟩) (Or.inr ⟨'-', rfl, by decide⟩)
    (by decide) (by decide)

end Maitri
